import Mathlib

/-!
Verification development for `lmdb_object_store.py` (`LmdbObjectStore`):
a shallow embedding of the buffered LMDB object store and proofs of its
specified properties.

Modelling conventions
- Normalized keys (`_norm_key` output, byte strings) are modelled as `Nat`.
- Stored Python objects are modelled as `Nat`; `pickle.dumps` becomes `dumps`,
  producing a `PVal` (a byte string) carrying a size (used by the map-full
  model) and the object it deserializes to (`none` models bytes on which
  `pickle.loads` raises).
- The LMDB environment data is an association list `DB` (committed records);
  a write transaction applies all its operations and commits iff the
  resulting data fits in the current map size, otherwise it raises
  `MapFullError` and rolls back — modelling LMDB's atomic commit/abort.
- Python `dict` (the write buffer, result dicts) is an association list with
  insertion-order iteration and in-place overwrite, exactly dict semantics.
- The while-True grow-and-retry loops are given an explicit fuel parameter;
  `none` means the fuel ran out (a totality lemma shows enough fuel always
  exists, so this is an artifact of the encoding, not of the code).
- Each store operation returns the result together with the post-state,
  `Except (Err × Store)` carrying the post-state on a raised exception.
-/

namespace LOS

/-- A pickled byte string: its length in bytes (relevant for map-full
behaviour) and the object `pickle.loads` recovers from it (`none` models
bytes whose deserialization raises). -/
structure PVal where
  size : Nat
  obj : Option Nat
deriving DecidableEq, Repr

/-- Model of `pickle.dumps(v, protocol=HIGHEST_PROTOCOL)`: an invertible
encoding; the byte length is taken to grow with the object. -/
def dumps (v : Nat) : PVal := ⟨v + 1, some v⟩

/-- Model of `pickle.loads`: recover the object, or fail. -/
def loads (p : PVal) : Option Nat := p.obj

/-- Context tag of an unpickling failure (`_unpickle_error`): the value came
from the write buffer or from the database. -/
inductive ErrCtx where
  | buffered
  | persisted
deriving DecidableEq, Repr

/-- Errors raised by store operations. -/
inductive Err where
  /-- `lmdb.Error` from `_ensure_open`. -/
  | closed
  /-- `lmdb.Error` from `_ensure_writable`. -/
  | readOnly
  /-- `lmdb.MapFullError` that could not be resolved by growing. -/
  | mapFull
  /-- `KeyError` from `__getitem__` on a missing key. -/
  | keyNotFound
  /-- `RuntimeError` from `_unpickle_error`. -/
  | corrupt (ctx : ErrCtx)
deriving DecidableEq, Repr

/-- Association-list lookup, the model of Python `dict.__getitem__` /
`dict.get` on the first (unique) matching key. -/
def alGet {α : Type} (l : List (Nat × α)) (k : Nat) : Option α :=
  (l.find? (fun q => q.1 == k)).map Prod.snd

/-- Association-list store, the model of Python `dict.__setitem__`:
overwrite in place when the key is present, else append (insertion order). -/
def alSet {α : Type} (l : List (Nat × α)) (k : Nat) (v : α) : List (Nat × α) :=
  if l.any (fun q => q.1 == k) then
    l.map (fun q => if q.1 == k then (k, v) else q)
  else
    l ++ [(k, v)]

/-- Association-list removal, the model of deleting a key from the database. -/
def alDelete {α : Type} (l : List (Nat × α)) (k : Nat) : List (Nat × α) :=
  l.filter (fun q => ¬ q.1 == k)

/-- The committed contents of the LMDB environment. -/
abbrev DB : Type := List (Nat × PVal)

/-- Read a committed record (`txn.get`). -/
def dbGet (d : DB) (k : Nat) : Option PVal := alGet d k

/-- Write a committed record (`txn.put`). -/
def dbPut (d : DB) (k : Nat) (p : PVal) : DB := alSet d k p

/-- Delete a committed record (`txn.delete`). -/
def dbDelete (d : DB) (k : Nat) : DB := alDelete d k

/-- Total byte size of the committed data: each record costs its value's
size plus one byte of key overhead.  A write transaction commits iff this
fits in the map size. -/
def dbSize (d : DB) : Nat := d.foldl (fun a q => a + q.2.size + 1) 0

/-- A write-buffer entry: a pickled value, or the `_DELETION_SENTINEL`
tombstone staged by `delete`. -/
inductive BufEntry where
  | val (p : PVal)
  | tomb
deriving DecidableEq, Repr

/-- The write buffer: a Python dict from normalized key to buffer entry. -/
abbrev Buffer : Type := List (Nat × BufEntry)

/-- Buffer lookup (`self.write_buffer[k]` / `k in self.write_buffer`). -/
def bufGet (b : Buffer) (k : Nat) : Option BufEntry := alGet b k

/-- Buffer staging (`self.write_buffer[norm_key] = ...`). -/
def bufSet (b : Buffer) (k : Nat) (e : BufEntry) : Buffer := alSet b k e

/-- Apply one buffered operation inside a write transaction:
`txn.delete(key)` for the sentinel and `txn.put(key, value)` otherwise. -/
def applyEntry (d : DB) (q : Nat × BufEntry) : DB :=
  match q.2 with
  | .val p => dbPut d q.1 p
  | .tomb => dbDelete d q.1

/-- Apply a sequence of buffered operations in iteration order, as the
transaction body of `_flush` / `put_many` does. -/
def applyBuf (d : DB) (ops : Buffer) : DB := ops.foldl applyEntry d

/-- The 64 MiB growth increment of `_grow_mapsize_for_retry`. -/
def MiB64 : Nat := 64 * 1024 * 1024

/-- Pure core of `_grow_mapsize_for_retry`: from the current map size and
the configured `max_map_size` ceiling, either the new map size or a
`MapFullError` when the size is already at the configured maximum. -/
def growMapsize (ms : Nat) (ceil : Option Nat) : Except Unit Nat :=
  match ceil with
  | some c =>
      if c ≤ ms then .error ()
      else .ok (min (max (ms * 2) (ms + MiB64)) c)
  | none => .ok (max (ms * 2) (ms + MiB64))

/-- The `while True` grow-and-retry loop shared by `_flush` and `put_many`:
attempt the whole write transaction; on `MapFullError` grow the map and
retry the entire transaction.  Returns the committed data and final map
size, or the map size at which growth failed.  `fuel` bounds the number of
iterations; `none` means it was exhausted. -/
def txnLoop (fuel : Nat) (d : DB) (ops : Buffer) (ms : Nat) (ceil : Option Nat) :
    Option (Except Nat (DB × Nat)) :=
  match fuel with
  | 0 => none
  | fuel + 1 =>
      if dbSize (applyBuf d ops) ≤ ms then some (.ok (applyBuf d ops, ms))
      else
        match growMapsize ms ceil with
        | .error _ => some (.error ms)
        | .ok ms' => txnLoop fuel d ops ms' ceil

/-- The store state: the LMDB environment (committed data, map size,
configured ceiling) plus the wrapper state of `LmdbObjectStore.__init__`. -/
structure Store where
  db : DB
  mapSize : Nat
  maxMapSize : Option Nat
  write_buffer : Buffer
  batch_size : Nat
  autoflush_on_read : Bool
  readonly : Bool
  closing : Bool
  is_closed : Bool
  readers : Nat
deriving DecidableEq, Repr

/-- `_ensure_open` raises when the store is closing or closed. -/
def Store.notOpen (s : Store) : Bool := s.closing || s.is_closed

/-- Model of `_grow_mapsize_for_retry` at the store level: on success the
environment's map size is updated; on failure `lmdb.MapFullError` is raised
and nothing changes. -/
def Store.growForRetry (s : Store) : Except (Err × Store) Store :=
  match growMapsize s.mapSize s.maxMapSize with
  | .error _ => .error (.mapFull, s)
  | .ok n => .ok { s with mapSize := n }

/-- Model of `_flush`: no-op on an empty buffer; otherwise run the
grow-and-retry transaction over every buffered entry and clear the buffer
on success.  On an unresolved `MapFullError` the exception propagates with
the buffer intact (only the map size may have grown). -/
def Store.flushBuffer (fuel : Nat) (s : Store) : Option (Except (Err × Store) Store) :=
  if s.write_buffer.isEmpty then some (.ok s)
  else
    match txnLoop fuel s.db s.write_buffer s.mapSize s.maxMapSize with
    | none => none
    | some (.ok (d', ms')) =>
        some (.ok { s with db := d', mapSize := ms', write_buffer := [] })
    | some (.error ms') => some (.error (.mapFull, { s with mapSize := ms' }))

/-- Model of `put`: stage the pickled value in the buffer and flush when the
buffer has reached `batch_size`. -/
def Store.put (fuel : Nat) (s : Store) (k : Nat) (v : Nat) :
    Option (Except (Err × Store) Store) :=
  let p := dumps v
  if s.notOpen then some (.error (.closed, s))
  else if s.readonly then some (.error (.readOnly, s))
  else
    let s1 := { s with write_buffer := bufSet s.write_buffer k (.val p) }
    if s.batch_size ≤ s1.write_buffer.length then s1.flushBuffer fuel
    else some (.ok s1)

/-- Model of `delete`: stage a tombstone in the buffer and flush when the
buffer has reached `batch_size`. -/
def Store.delete (fuel : Nat) (s : Store) (k : Nat) :
    Option (Except (Err × Store) Store) :=
  if s.notOpen then some (.error (.closed, s))
  else if s.readonly then some (.error (.readOnly, s))
  else
    let s1 := { s with write_buffer := bufSet s.write_buffer k .tomb }
    if s.batch_size ≤ s1.write_buffer.length then s1.flushBuffer fuel
    else some (.ok s1)

/-- Model of the public `flush`: reject when closed or read-only, then
delegate to `_flush`. -/
def Store.flush (fuel : Nat) (s : Store) : Option (Except (Err × Store) Store) :=
  if s.notOpen then some (.error (.closed, s))
  else if s.readonly then some (.error (.readOnly, s))
  else s.flushBuffer fuel

/-- Model of `get`: consult the buffer first (tombstone gives the default,
a value is unpickled); on a buffer miss optionally flush per
`autoflush_on_read`, register as a reader, read the engine, and deregister.
The result carries the returned object (`none` is the default for a missing
key, modelling the sentinel default) and the post-state. -/
def Store.get (fuel : Nat) (s : Store) (k : Nat) (dflt : Option Nat) :
    Option (Except (Err × Store) (Option Nat × Store)) :=
  if s.notOpen then some (.error (.closed, s))
  else
    match bufGet s.write_buffer k with
    | some .tomb => some (.ok (dflt, s))
    | some (.val p) =>
        match loads p with
        | some v => some (.ok (some v, s))
        | none => some (.error (.corrupt .buffered, s))
    | none =>
        match (if s.autoflush_on_read then s.flushBuffer fuel else some (.ok s)) with
        | none => none
        | some (.error es) => some (.error es)
        | some (.ok s1) =>
            let s2 := { s1 with readers := s1.readers + 1 }
            let s3 := { s2 with readers := s2.readers - 1 }
            match dbGet s2.db k with
            | none => some (.ok (dflt, s3))
            | some p =>
                match loads p with
                | some v => some (.ok (some v, s3))
                | none => some (.error (.corrupt .persisted, s3))

/-- Model of `exists`: consult the buffer first (an entry answers directly,
a tombstone meaning absent); on a buffer miss flush per the `flush`
override or `autoflush_on_read`, then check the engine under reader
registration. -/
def Store.existsKey (fuel : Nat) (s : Store) (k : Nat) (flushArg : Option Bool) :
    Option (Except (Err × Store) (Bool × Store)) :=
  if s.notOpen then some (.error (.closed, s))
  else
    match bufGet s.write_buffer k with
    | some e => some (.ok (match e with | .val _ => true | .tomb => false, s))
    | none =>
        let should := flushArg.getD s.autoflush_on_read
        match (if should then s.flushBuffer fuel else some (.ok s)) with
        | none => none
        | some (.error es) => some (.error es)
        | some (.ok s1) =>
            let s2 := { s1 with readers := s1.readers + 1 }
            let s3 := { s2 with readers := s2.readers - 1 }
            some (.ok ((dbGet s2.db k).isSome, s3))

/-- Model of `__getitem__`: `get` with the sentinel default (modelled as
`none`); a missing key raises `KeyError`. -/
def Store.getItem (fuel : Nat) (s : Store) (k : Nat) :
    Option (Except (Err × Store) (Nat × Store)) :=
  match s.get fuel k none with
  | none => none
  | some (.error es) => some (.error es)
  | some (.ok (none, s')) => some (.error (.keyNotFound, s'))
  | some (.ok (some v, s')) => some (.ok (v, s'))

/-- An input key to `get_many`, before normalization: `orig` identifies the
original key object handed in by the caller (returned verbatim in the
not-found list), `key` is its `_norm_key` image. -/
structure RawKey where
  orig : Nat
  key : Nat
deriving DecidableEq, Repr

/-- One step of the buffer-scan loop of `get_many`, over the state
`(found_pickled, keys_to_check_in_db, seen_for_db)`. -/
def gmStep (buf : Buffer) (st : List (Nat × PVal) × List Nat × List Nat) (k : Nat) :
    List (Nat × PVal) × List Nat × List Nat :=
  match bufGet buf k with
  | some (BufEntry.val p) =>
      if st.1.any (fun q => q.1 == k) then st
      else (st.1 ++ [(k, p)], st.2.1, st.2.2)
  | some BufEntry.tomb => st
  | none =>
      if k ∈ st.2.2 then st
      else (st.1, st.2.1 ++ [k], st.2.2 ++ [k])

/-- The buffer-scan loop of `get_many` (building `found_pickled`,
`keys_to_check_in_db` and `seen_for_db`): returns the buffered pickled hits
in first-occurrence order and the deduplicated engine-lookup list. -/
def gmPartition (buf : Buffer) (nks : List Nat) : List (Nat × PVal) × List Nat :=
  let st := nks.foldl (gmStep buf) ([], [], [])
  (st.1, st.2.1)

/-- The buffered-unpickle loop of `get_many`: deserialize every buffered
hit, failing with the offending key on the first corrupt record. -/
def loadAll : List (Nat × PVal) → Except Nat (List (Nat × Nat))
  | [] => .ok []
  | (k, p) :: rest =>
      match loads p with
      | none => .error k
      | some v =>
          match loadAll rest with
          | .error k' => .error k'
          | .ok tl => .ok ((k, v) :: tl)

/-- The engine-read loop of `get_many`: look each deduplicated key up in a
read transaction, adding hits not already found, failing with the offending
key on a corrupt record. -/
def engineLookup (d : DB) : List Nat → List (Nat × Nat) → Except Nat (List (Nat × Nat))
  | [], acc => .ok acc
  | k :: rest, acc =>
      match dbGet d k with
      | none => engineLookup d rest acc
      | some p =>
          if acc.any (fun q => q.1 == k) then engineLookup d rest acc
          else
            match loads p with
            | none => .error k
            | some v => engineLookup d rest (acc ++ [(k, v)])

/-- The post-flush phase of `get_many`: register the reader window when the
engine will be consulted, unpickle the buffered hits (note that, as in the
source, this deserialization runs after the reader increment but outside
the `try/finally` that performs the decrement), perform the engine lookups,
and compute the in-order not-found list of original keys. -/
def gmRead (s1 : Store) (keys : List RawKey)
    (pr : List (Nat × PVal) × List Nat) :
    Option (Except (Err × Store) (List (Nat × Nat) × List RawKey × Store)) :=
  let s2 := if pr.2.isEmpty then s1 else { s1 with readers := s1.readers + 1 }
  match loadAll pr.1 with
  | .error _ => some (.error (.corrupt .buffered, s2))
  | .ok found0 =>
      if pr.2.isEmpty then
        some (.ok (found0,
          keys.filter (fun rk => ¬ found0.any (fun q => q.1 == rk.key)), s2))
      else
        let s3 := { s2 with readers := s2.readers - 1 }
        match engineLookup s2.db pr.2 found0 with
        | .error _ => some (.error (.corrupt .persisted, s3))
        | .ok found =>
            some (.ok (found,
              keys.filter (fun rk => ¬ found.any (fun q => q.1 == rk.key)), s3))

/-- The phase of `get_many` after the buffer scan: flush once when engine
lookups are pending and autoflush is on, then read. -/
def gmAfterScan (fuel : Nat) (s : Store) (keys : List RawKey)
    (pr : List (Nat × PVal) × List Nat) :
    Option (Except (Err × Store) (List (Nat × Nat) × List RawKey × Store)) :=
  match (if !pr.2.isEmpty && s.autoflush_on_read then s.flushBuffer fuel
         else some (.ok s)) with
  | none => none
  | some (.error es) => some (.error es)
  | some (.ok s1) => gmRead s1 keys pr

/-- Model of `get_many` (with the decode flags at their defaults): scan the
buffer, optionally flush once, register a single reader window for the
engine phase, unpickle buffered hits, perform the engine lookups, and
return the found map keyed by normalized key together with the original
not-found keys in input order. -/
def Store.get_many (fuel : Nat) (s : Store) (keys : List RawKey) :
    Option (Except (Err × Store) (List (Nat × Nat) × List RawKey × Store)) :=
  if s.notOpen then some (.error (.closed, s))
  else gmAfterScan fuel s keys (gmPartition s.write_buffer (keys.map RawKey.key))

/-- The model of `_iter_normalized_pickled`: normalize and pickle the input
items, passing the deletion sentinel (modelled as `none`) through. -/
def normPickle (items : List (Nat × Option Nat)) : Buffer :=
  items.map (fun kv =>
    (kv.1, match kv.2 with
           | none => BufEntry.tomb
           | some v => BufEntry.val (dumps v)))

/-- Model of `put_many`: reject when closed or read-only, flush any
pre-existing buffered entries, materialize the normalized pickled items
once, then run the items as one all-or-nothing grow-and-retry transaction
(the buffer itself is not touched by that transaction). -/
def Store.put_many (fuel : Nat) (s : Store) (items : List (Nat × Option Nat)) :
    Option (Except (Err × Store) Store) :=
  if s.notOpen then some (.error (.closed, s))
  else if s.readonly then some (.error (.readOnly, s))
  else
    match (if s.write_buffer.isEmpty then some (.ok s) else s.flushBuffer fuel) with
    | none => none
    | some (.error es) => some (.error es)
    | some (.ok s1) =>
        let mat := normPickle items
        match txnLoop fuel s1.db mat s1.mapSize s1.maxMapSize with
        | none => none
        | some (.ok (d', ms')) => some (.ok { s1 with db := d', mapSize := ms' })
        | some (.error ms') => some (.error (.mapFull, { s1 with mapSize := ms' }))

/-- The reader-deregistration step (the `finally` blocks of `get`, `exists`
and `get_many`): decrement the counter and report whether the close waiter
is signalled (`notify_all` fires when the counter reaches zero while the
state is Closing). -/
def readerExit (readers : Nat) (closing : Bool) : Nat × Bool :=
  let r := readers - 1
  (r, decide (r = 0) && closing)

/-- The logical value of a key through the buffer overlay: a buffered value
shadows the database, a tombstone hides it, otherwise the committed record
shows through. -/
def overlayValue (s : Store) (k : Nat) : Option PVal :=
  match bufGet s.write_buffer k with
  | some (.val p) => some p
  | some .tomb => none
  | none => dbGet s.db k

/-- The store carried by an operation's outcome, whether it returned
normally or raised. -/
def storeOfR {α : Type} : Except (Err × Store) (α × Store) → Store
  | .ok (_, s) => s
  | .error (_, s) => s

/-- The caller-visible result of an operation: the returned value, or the
raised error, with the post-state projected away. -/
def valueOfR {α : Type} : Except (Err × Store) (α × Store) → Except Err α
  | .ok (a, _) => .ok a
  | .error (e, _) => .error e

/-- Well-formedness of the write buffer: as a Python dict its keys are
unique.  Every buffer reachable through the API satisfies this. -/
def BufWF (b : Buffer) : Prop := (b.map Prod.fst).Nodup

instance (b : Buffer) : Decidable (BufWF b) := by
  unfold BufWF; infer_instance

/-! ### Association-list lemmas -/

theorem alGet_nil {α : Type} (k : Nat) : alGet ([] : List (Nat × α)) k = none := rfl

theorem alGet_cons {α : Type} (k' : Nat) (v : α) (l : List (Nat × α)) (k : Nat) :
    alGet ((k', v) :: l) k = if k' = k then some v else alGet l k := by
  by_cases h : k' = k <;> simp [alGet, List.find?_cons, h]

theorem alGet_append {α : Type} (l₁ l₂ : List (Nat × α)) (k : Nat) :
    alGet (l₁ ++ l₂) k = (alGet l₁ k).or (alGet l₂ k) := by
  induction l₁ with
  | nil => simp [alGet]
  | cons q l ih =>
      rcases q with ⟨k', v⟩
      by_cases h : k' = k <;> simp [alGet_cons, h, ih]

theorem alGet_eq_none_of_not_mem {α : Type} {l : List (Nat × α)} {k : Nat}
    (h : k ∉ l.map Prod.fst) : alGet l k = none := by
  induction l with
  | nil => rfl
  | cons q l ih =>
      rcases q with ⟨k', v⟩
      simp only [List.map_cons, List.mem_cons] at h
      push_neg at h
      rw [alGet_cons, if_neg (fun hh => h.1 hh.symm), ih h.2]

theorem alGet_isSome_eq_any {α : Type} (l : List (Nat × α)) (k : Nat) :
    (alGet l k).isSome = l.any (fun q => q.1 == k) := by
  induction l with
  | nil => rfl
  | cons q l ih =>
      rcases q with ⟨k', v⟩
      by_cases h : k' = k <;> simp [alGet_cons, h, ih]

theorem alGet_eq_none_iff_not_any {α : Type} (l : List (Nat × α)) (k : Nat) :
    alGet l k = none ↔ l.any (fun q => q.1 == k) = false := by
  rw [← alGet_isSome_eq_any]
  cases alGet l k <;> simp

theorem alGet_mapSet_self {α : Type} (l : List (Nat × α)) (k : Nat) (v : α)
    (h : l.any (fun q => q.1 == k) = true) :
    alGet (l.map (fun q => if q.1 == k then (k, v) else q)) k = some v := by
  induction l with
  | nil => simp at h
  | cons q l ih =>
      rcases q with ⟨k₀, v₀⟩
      simp only [List.map_cons]
      by_cases hk : k₀ = k
      · subst hk
        rw [if_pos (by simp), alGet_cons, if_pos rfl]
      · rw [if_neg (by simp [hk]), alGet_cons, if_neg hk]
        apply ih
        simp only [List.any_cons, Bool.or_eq_true] at h
        rcases h with h | h
        · exact absurd (by simpa using h) hk
        · exact h

theorem alGet_mapSet_ne {α : Type} (l : List (Nat × α)) (k k' : Nat) (v : α)
    (h : k' ≠ k) :
    alGet (l.map (fun q => if q.1 == k' then (k', v) else q)) k = alGet l k := by
  induction l with
  | nil => rfl
  | cons q l ih =>
      rcases q with ⟨k₀, v₀⟩
      simp only [List.map_cons]
      by_cases hk : k₀ = k'
      · subst hk
        rw [if_pos (by simp), alGet_cons, alGet_cons, if_neg h, if_neg h]
        exact ih
      · rw [if_neg (by simp [hk]), alGet_cons, alGet_cons]
        by_cases hk2 : k₀ = k
        · simp [hk2]
        · rw [if_neg hk2, if_neg hk2]
          exact ih

theorem alGet_alSet_self {α : Type} (l : List (Nat × α)) (k : Nat) (v : α) :
    alGet (alSet l k v) k = some v := by
  unfold alSet
  by_cases h : l.any (fun q => q.1 == k)
  · rw [if_pos h]
    exact alGet_mapSet_self l k v h
  · rw [if_neg h, alGet_append,
      (alGet_eq_none_iff_not_any l k).2 (Bool.not_eq_true _ ▸ h)]
    simp [alGet_cons]

theorem alGet_alSet_ne {α : Type} (l : List (Nat × α)) (k k' : Nat) (v : α)
    (h : k' ≠ k) : alGet (alSet l k' v) k = alGet l k := by
  unfold alSet
  by_cases ha : l.any (fun q => q.1 == k')
  · rw [if_pos ha]
    exact alGet_mapSet_ne l k k' v h
  · rw [if_neg ha, alGet_append, alGet_cons]
    simp [if_neg h, alGet_nil]

theorem alGet_alDelete_self {α : Type} (l : List (Nat × α)) (k : Nat) :
    alGet (alDelete l k) k = none := by
  induction l with
  | nil => rfl
  | cons q l ih =>
      rcases q with ⟨k₀, v₀⟩
      unfold alDelete at ih ⊢
      rw [List.filter_cons]
      by_cases hk : k₀ = k
      · rw [if_neg (by simp [hk])]
        exact ih
      · rw [if_pos (by simp [hk]), alGet_cons, if_neg hk]
        exact ih

theorem alGet_alDelete_ne {α : Type} (l : List (Nat × α)) (k k' : Nat)
    (h : k' ≠ k) : alGet (alDelete l k') k = alGet l k := by
  induction l with
  | nil => rfl
  | cons q l ih =>
      rcases q with ⟨k₀, v₀⟩
      unfold alDelete at ih ⊢
      rw [List.filter_cons]
      by_cases hk : k₀ = k'
      · subst hk
        rw [if_neg (by simp), ih, alGet_cons, if_neg h]
      · rw [if_pos (by simp [hk]), alGet_cons, alGet_cons]
        by_cases hk2 : k₀ = k
        · simp [hk2]
        · rw [if_neg hk2, if_neg hk2]
          exact ih

/-! ### The buffer overlay and the flushed database -/

/-- Applying the buffered operations of a well-formed buffer to the
database realizes the overlay: a buffered value becomes the committed
record, a tombstone removes it, and unbuffered keys are untouched. -/
theorem dbGet_applyBuf (d : DB) (buf : Buffer) (k : Nat) (h : BufWF buf) :
    dbGet (applyBuf d buf) k =
      (match bufGet buf k with
       | some (.val p) => some p
       | some .tomb => none
       | none => dbGet d k) := by
  induction buf generalizing d with
  | nil => rfl
  | cons q rest ih =>
      rcases q with ⟨k', e⟩
      have hwf : BufWF rest := (List.nodup_cons.mp h).2
      have hnm : k' ∉ rest.map Prod.fst := (List.nodup_cons.mp h).1
      show dbGet (applyBuf (applyEntry d (k', e)) rest) k = _
      by_cases hk : k' = k
      · subst hk
        have hrest : bufGet rest k' = none := alGet_eq_none_of_not_mem hnm
        rw [ih _ hwf]
        rw [show bufGet ((k', e) :: rest) k' = some e by
          simp [bufGet, alGet_cons]]
        rw [hrest]
        cases e with
        | val p => exact alGet_alSet_self d k' p
        | tomb => exact alGet_alDelete_self d k'
      · rw [ih _ hwf]
        rw [show bufGet ((k', e) :: rest) k = bufGet rest k by
          simp [bufGet, alGet_cons, hk]]
        cases hb : bufGet rest k with
        | some e' => cases e' <;> rfl
        | none =>
            show dbGet (applyEntry d (k', e)) k = dbGet d k
            cases e with
            | val p => exact alGet_alSet_ne d k k' p hk
            | tomb => exact alGet_alDelete_ne d k k' hk

/-- The entry of the last operation on `k` in a sequence of buffered
operations (later entries override earlier ones). -/
def lastEntry (ops : Buffer) (k : Nat) : Option BufEntry :=
  (ops.reverse.find? (fun q => q.1 == k)).map Prod.snd

theorem lastEntry_cons (k' : Nat) (e : BufEntry) (rest : Buffer) (k : Nat) :
    lastEntry ((k', e) :: rest) k =
      match lastEntry rest k with
      | some x => some x
      | none => if k' = k then some e else none := by
  have h1 : lastEntry ((k', e) :: rest) k = (lastEntry rest k).or (alGet [(k', e)] k) := by
    show alGet (((k', e) :: rest).reverse) k = _
    rw [List.reverse_cons]
    exact alGet_append rest.reverse [(k', e)] k
  rw [h1]
  cases lastEntry rest k with
  | some x => rfl
  | none =>
      show alGet [(k', e)] k = _
      rw [alGet_cons k' e [] k]
      by_cases hk : k' = k
      · rw [if_pos hk, if_pos hk]
      · rw [if_neg hk, if_neg hk]
        rfl

/-- Applying any (not necessarily deduplicated) sequence of buffered
operations is last-write-wins per key: the committed record for `k` is
determined by the final operation on `k` in the sequence. -/
theorem dbGet_applyBuf_lastEntry (d : DB) (ops : Buffer) (k : Nat) :
    dbGet (applyBuf d ops) k =
      (match lastEntry ops k with
       | some (.val p) => some p
       | some .tomb => none
       | none => dbGet d k) := by
  induction ops generalizing d with
  | nil => rfl
  | cons q rest ih =>
      rcases q with ⟨k', e⟩
      show dbGet (applyBuf (applyEntry d (k', e)) rest) k = _
      rw [ih, lastEntry_cons]
      cases hl : lastEntry rest k with
      | some x => cases x <;> rfl
      | none =>
          show dbGet (applyEntry d (k', e)) k = _
          by_cases hk : k' = k
          · subst hk
            rw [if_pos rfl]
            cases e with
            | val p => exact alGet_alSet_self d k' p
            | tomb => exact alGet_alDelete_self d k'
          · rw [if_neg hk]
            cases e with
            | val p => exact alGet_alSet_ne d k k' p hk
            | tomb => exact alGet_alDelete_ne d k k' hk

/-! ### Buffer staging lemmas -/

theorem bufGet_bufSet_self (b : Buffer) (k : Nat) (e : BufEntry) :
    bufGet (bufSet b k e) k = some e := alGet_alSet_self b k e

theorem bufGet_bufSet_ne (b : Buffer) (k k' : Nat) (e : BufEntry) (h : k' ≠ k) :
    bufGet (bufSet b k' e) k = bufGet b k := alGet_alSet_ne b k k' e h

theorem alSet_length_mem {α : Type} (l : List (Nat × α)) (k : Nat) (v : α)
    (h : l.any (fun q => q.1 == k) = true) : (alSet l k v).length = l.length := by
  unfold alSet
  rw [if_pos h, List.length_map]

theorem alSet_length_le {α : Type} (l : List (Nat × α)) (k : Nat) (v : α) :
    (alSet l k v).length ≤ l.length + 1 := by
  unfold alSet
  by_cases h : l.any (fun q => q.1 == k)
  · rw [if_pos h, List.length_map]
    exact Nat.le_succ _
  · rw [if_neg h, List.length_append]
    simp

theorem alSet_any_self {α : Type} (l : List (Nat × α)) (k : Nat) (v : α) :
    (alSet l k v).any (fun q => q.1 == k) = true := by
  rw [← alGet_isSome_eq_any, alGet_alSet_self]
  rfl

/-! ### Resize controller and the grow-and-retry loop -/

theorem MiB64_pos : 0 < MiB64 := by
  unfold MiB64
  norm_num

theorem growMapsize_ok_lt {ms : Nat} {ceil : Option Nat} {ms' : Nat}
    (h : growMapsize ms ceil = .ok ms') : ms < ms' := by
  have hmax : ms < max (ms * 2) (ms + MiB64) :=
    Nat.lt_of_lt_of_le (Nat.lt_add_of_pos_right MiB64_pos) (Nat.le_max_right _ _)
  cases ceil with
  | none =>
      simp only [growMapsize, Except.ok.injEq] at h
      omega
  | some c =>
      simp only [growMapsize] at h
      by_cases hc : c ≤ ms
      · rw [if_pos hc] at h
        exact absurd h (by simp)
      · rw [if_neg hc] at h
        simp only [Except.ok.injEq] at h
        have hc2 : ms < c := Nat.lt_of_not_le hc
        have : ms < min (max (ms * 2) (ms + MiB64)) c := lt_min hmax hc2
        omega

theorem growMapsize_ok_ceil {ms c ms' : Nat}
    (h : growMapsize ms (some c) = .ok ms') : ms < c := by
  simp only [growMapsize] at h
  by_cases hc : c ≤ ms
  · rw [if_pos hc] at h
    exact absurd h (by simp)
  · exact Nat.lt_of_not_le hc

theorem growMapsize_err {ms : Nat} {ceil : Option Nat}
    (h : growMapsize ms ceil = .error ()) : ∃ c, ceil = some c ∧ c ≤ ms := by
  cases ceil with
  | none =>
      simp only [growMapsize] at h
      exact absurd h (by simp)
  | some c =>
      by_cases hc : c ≤ ms
      · exact ⟨c, rfl, hc⟩
      · simp only [growMapsize, if_neg hc] at h
        exact absurd h (by simp)

/-- One unfolding step of the retry loop. -/
theorem txnLoop_succ (fuel : Nat) (d : DB) (ops : Buffer) (ms : Nat)
    (ceil : Option Nat) :
    txnLoop (fuel + 1) d ops ms ceil =
      (if dbSize (applyBuf d ops) ≤ ms then some (.ok (applyBuf d ops, ms))
       else
         match growMapsize ms ceil with
         | .error _ => some (.error ms)
         | .ok ms' => txnLoop fuel d ops ms' ceil) := rfl

/-- If the grow-and-retry loop commits, it committed exactly the whole
batch of operations applied to the starting data, the final map size
accommodates it, and the map size never shrank. -/
theorem txnLoop_ok {fuel : Nat} {d : DB} {ops : Buffer} {ms : Nat}
    {ceil : Option Nat} {d' : DB} {msf : Nat}
    (h : txnLoop fuel d ops ms ceil = some (.ok (d', msf))) :
    d' = applyBuf d ops ∧ dbSize d' ≤ msf ∧ ms ≤ msf := by
  induction fuel generalizing ms with
  | zero => cases h
  | succ fuel ih =>
      rw [txnLoop_succ] at h
      by_cases hsz : dbSize (applyBuf d ops) ≤ ms
      · rw [if_pos hsz] at h
        simp only [Option.some.injEq, Except.ok.injEq, Prod.mk.injEq] at h
        rcases h with ⟨h1, h2⟩
        subst h1
        subst h2
        exact ⟨rfl, hsz, Nat.le_refl _⟩
      · rw [if_neg hsz] at h
        cases hg : growMapsize ms ceil with
        | error u =>
            rw [hg] at h
            simp at h
        | ok ms' =>
            rw [hg] at h
            rcases ih h with ⟨h1, h2, h3⟩
            exact ⟨h1, h2, Nat.le_of_lt (Nat.lt_of_lt_of_le (growMapsize_ok_lt hg) h3)⟩

/-- If the grow-and-retry loop fails, a ceiling is configured, the map size
at failure has reached it, and the batch still does not fit. -/
theorem txnLoop_err {fuel : Nat} {d : DB} {ops : Buffer} {ms : Nat}
    {ceil : Option Nat} {msf : Nat}
    (h : txnLoop fuel d ops ms ceil = some (.error msf)) :
    ∃ c, ceil = some c ∧ c ≤ msf ∧ msf < dbSize (applyBuf d ops) ∧ ms ≤ msf := by
  induction fuel generalizing ms with
  | zero => cases h
  | succ fuel ih =>
      rw [txnLoop_succ] at h
      by_cases hsz : dbSize (applyBuf d ops) ≤ ms
      · rw [if_pos hsz] at h
        simp at h
      · rw [if_neg hsz] at h
        cases hg : growMapsize ms ceil with
        | error u =>
            rw [hg] at h
            simp only [Option.some.injEq, Except.error.injEq] at h
            subst h
            rcases growMapsize_err hg with ⟨c, hc, hle⟩
            exact ⟨c, hc, hle, Nat.lt_of_not_le hsz, Nat.le_refl _⟩
        | ok ms' =>
            rw [hg] at h
            rcases ih h with ⟨c, hc, hle, hlt, hge⟩
            exact ⟨c, hc, hle, hlt, Nat.le_of_lt (Nat.lt_of_lt_of_le (growMapsize_ok_lt hg) hge)⟩

/-- A decided loop run does not depend on the exact fuel: more fuel gives
the same outcome. -/
theorem txnLoop_mono {fuel fuel' : Nat} {d : DB} {ops : Buffer} {ms : Nat}
    {ceil : Option Nat} {r : Except Nat (DB × Nat)}
    (hf : fuel ≤ fuel') (h : txnLoop fuel d ops ms ceil = some r) :
    txnLoop fuel' d ops ms ceil = some r := by
  induction fuel generalizing ms fuel' with
  | zero => cases h
  | succ fuel ih =>
      rcases fuel' with _ | fuel'
      · exact absurd hf (by omega)
      rw [txnLoop_succ] at h ⊢
      by_cases hsz : dbSize (applyBuf d ops) ≤ ms
      · rw [if_pos hsz] at h ⊢
        exact h
      · rw [if_neg hsz] at h ⊢
        cases hg : growMapsize ms ceil with
        | error u => rw [hg] at h; exact h
        | ok ms' => rw [hg] at h; exact ih (by omega) h

/-- The grow-and-retry loop always terminates: some fuel yields an outcome
(the map size strictly grows each iteration, and once it accommodates the
batch the transaction commits). -/
theorem txnLoop_total (d : DB) (ops : Buffer) (ceil : Option Nat) (ms : Nat) :
    ∃ fuel r, txnLoop fuel d ops ms ceil = some r := by
  have key : ∀ n ms, dbSize (applyBuf d ops) - ms ≤ n →
      ∃ fuel r, txnLoop fuel d ops ms ceil = some r := by
    intro n
    induction n with
    | zero =>
        intro ms h0
        have hsz : dbSize (applyBuf d ops) ≤ ms := by omega
        refine ⟨0 + 1, .ok (applyBuf d ops, ms), ?_⟩
        rw [txnLoop_succ, if_pos hsz]
    | succ n ih =>
        intro ms h0
        by_cases hsz : dbSize (applyBuf d ops) ≤ ms
        · refine ⟨0 + 1, .ok (applyBuf d ops, ms), ?_⟩
          rw [txnLoop_succ, if_pos hsz]
        · cases hg : growMapsize ms ceil with
          | error u =>
              refine ⟨0 + 1, .error ms, ?_⟩
              rw [txnLoop_succ, if_neg hsz, hg]
          | ok ms' =>
              have hlt : ms < ms' := growMapsize_ok_lt hg
              have hszlt : ms < dbSize (applyBuf d ops) := Nat.lt_of_not_le hsz
              rcases ih ms' (by omega) with ⟨fuel, r, hr⟩
              refine ⟨fuel + 1, r, ?_⟩
              rw [txnLoop_succ, if_neg hsz, hg]
              exact hr
  exact key _ ms (Nat.le_refl _)

/-! ### Flush corollaries -/

theorem flushBuffer_empty {s : Store} (fuel : Nat) (h : s.write_buffer = []) :
    s.flushBuffer fuel = some (.ok s) := by
  unfold Store.flushBuffer
  rw [if_pos (by rw [h]; rfl)]

/-- A successful `_flush` commits exactly the buffered operations, clears
the buffer, and changes no other store field (the map size may have
grown). -/
theorem flushBuffer_ok {fuel : Nat} {s s' : Store}
    (h : s.flushBuffer fuel = some (.ok s')) :
    s' = { s with db := applyBuf s.db s.write_buffer
                  write_buffer := []
                  mapSize := s'.mapSize } ∧ s.mapSize ≤ s'.mapSize := by
  unfold Store.flushBuffer at h
  by_cases hb : s.write_buffer.isEmpty
  · rw [if_pos hb] at h
    simp only [Option.some.injEq, Except.ok.injEq] at h
    subst h
    have hnil : s.write_buffer = [] := List.isEmpty_iff.mp hb
    refine ⟨?_, Nat.le_refl _⟩
    have happ : applyBuf s.db s.write_buffer = s.db := by rw [hnil]; rfl
    rw [happ, ← hnil]
  · rw [if_neg hb] at h
    cases ht : txnLoop fuel s.db s.write_buffer s.mapSize s.maxMapSize with
    | none => rw [ht] at h; cases h
    | some r =>
        rw [ht] at h
        cases r with
        | error msf => simp at h
        | ok p =>
            rcases p with ⟨d', msf⟩
            simp only [Option.some.injEq, Except.ok.injEq] at h
            subst h
            rcases txnLoop_ok ht with ⟨h1, _, h3⟩
            subst h1
            exact ⟨rfl, h3⟩

/-- A failed `_flush` raises `MapFullError`, leaves the committed data and
every buffered entry untouched, and implies the configured ceiling was
reached while the buffer still did not fit. -/
theorem flushBuffer_err {fuel : Nat} {s s' : Store} {e : Err}
    (h : s.flushBuffer fuel = some (.error (e, s'))) :
    e = .mapFull ∧ s' = { s with mapSize := s'.mapSize } ∧
      s.mapSize ≤ s'.mapSize ∧ s.write_buffer ≠ [] ∧
      ∃ c, s.maxMapSize = some c ∧ c ≤ s'.mapSize ∧
        s'.mapSize < dbSize (applyBuf s.db s.write_buffer) := by
  unfold Store.flushBuffer at h
  by_cases hb : s.write_buffer.isEmpty
  · rw [if_pos hb] at h
    simp at h
  · rw [if_neg hb] at h
    cases ht : txnLoop fuel s.db s.write_buffer s.mapSize s.maxMapSize with
    | none => rw [ht] at h; cases h
    | some r =>
        rw [ht] at h
        cases r with
        | ok p => rcases p with ⟨d', msf⟩; simp at h
        | error msf =>
            simp only [Option.some.injEq, Except.error.injEq, Prod.mk.injEq] at h
            rcases h with ⟨he, hs⟩
            subst hs
            rcases txnLoop_err ht with ⟨c, hc, hle, hlt, hge⟩
            exact ⟨he.symm, rfl, hge, fun hn => hb (by rw [hn]; rfl),
              c, hc, hle, hlt⟩

/-- `_flush` always terminates with a decided outcome for some fuel. -/
theorem flushBuffer_total (s : Store) :
    ∃ fuel r, s.flushBuffer fuel = some r := by
  by_cases hb : s.write_buffer.isEmpty
  · exact ⟨1, .ok s, by unfold Store.flushBuffer; rw [if_pos hb]⟩
  · rcases txnLoop_total s.db s.write_buffer s.maxMapSize s.mapSize with ⟨fuel, r, hr⟩
    cases r with
    | ok p =>
        rcases p with ⟨d', msf⟩
        refine ⟨fuel, .ok { s with db := d', mapSize := msf, write_buffer := [] }, ?_⟩
        unfold Store.flushBuffer
        rw [if_neg hb, hr]
    | error msf =>
        refine ⟨fuel, .error (.mapFull, { s with mapSize := msf }), ?_⟩
        unfold Store.flushBuffer
        rw [if_neg hb, hr]

/-- Flushing does not change the overlay-visible value of any key: the
buffered operations land in the database exactly where the overlay said
they were. -/
theorem overlayValue_flush {fuel : Nat} {s s' : Store}
    (hwf : BufWF s.write_buffer) (h : s.flushBuffer fuel = some (.ok s')) :
    ∀ k, overlayValue s' k = overlayValue s k := by
  intro k
  rcases flushBuffer_ok h with ⟨hs, _⟩
  rw [hs]
  show (match bufGet [] k with
        | some (.val p) => some p
        | some .tomb => none
        | none => dbGet (applyBuf s.db s.write_buffer) k) = overlayValue s k
  rw [show bufGet [] k = none from rfl]
  rw [dbGet_applyBuf s.db s.write_buffer k hwf]
  rfl

/-! ### Claim theorems -/

theorem min_grow_le_iff (ms c : Nat) :
    min (max (ms * 2) (ms + MiB64)) c ≤ ms ↔ c ≤ ms := by
  constructor
  · intro h
    by_contra hc
    have h1 : ms < max (ms * 2) (ms + MiB64) :=
      Nat.lt_of_lt_of_le (Nat.lt_add_of_pos_right MiB64_pos) (Nat.le_max_right _ _)
    have h2 : ms < c := Nat.lt_of_not_le hc
    have := lt_min h1 h2
    omega
  · intro h
    calc min (max (ms * 2) (ms + MiB64)) c ≤ c := Nat.min_le_right _ _
      _ ≤ ms := h

/-- C5: `_grow_mapsize_for_retry` fails with a map-full error, without
changing the map size, exactly when a ceiling is configured and growing
(doubling or adding 64MiB, clamped to the ceiling) cannot exceed the
current size; otherwise it sets the map size to
`max(current * 2, current + 64MiB)`, clamped to the ceiling when one is
configured. -/
theorem C5_resize_algorithm (s : Store) :
    (∀ e s', s.growForRetry = .error (e, s') →
        e = .mapFull ∧ s' = s ∧
        ∃ c, s.maxMapSize = some c ∧
          min (max (s.mapSize * 2) (s.mapSize + MiB64)) c ≤ s.mapSize) ∧
    ((∃ c, s.maxMapSize = some c ∧
        min (max (s.mapSize * 2) (s.mapSize + MiB64)) c ≤ s.mapSize) →
      s.growForRetry = .error (.mapFull, s)) ∧
    (s.maxMapSize = none →
      s.growForRetry =
        .ok { s with mapSize := max (s.mapSize * 2) (s.mapSize + MiB64) }) ∧
    (∀ c, s.maxMapSize = some c → s.mapSize < c →
      s.growForRetry =
        .ok { s with mapSize := min (max (s.mapSize * 2) (s.mapSize + MiB64)) c }) := by
  refine ⟨?_, ?_, ?_, ?_⟩
  · intro e s' h
    unfold Store.growForRetry at h
    cases hg : growMapsize s.mapSize s.maxMapSize with
    | ok n => rw [hg] at h; cases h
    | error u =>
        rw [hg] at h
        simp only [Except.error.injEq, Prod.mk.injEq] at h
        rcases h with ⟨he, hs⟩
        rcases growMapsize_err hg with ⟨c, hc, hle⟩
        exact ⟨he.symm, hs.symm, c, hc, (min_grow_le_iff s.mapSize c).mpr hle⟩
  · rintro ⟨c, hc, hle⟩
    have hcle : c ≤ s.mapSize := (min_grow_le_iff s.mapSize c).mp hle
    unfold Store.growForRetry
    rw [show growMapsize s.mapSize s.maxMapSize = .error () by
      rw [hc]; simp only [growMapsize, if_pos hcle]]
  · intro hc
    unfold Store.growForRetry
    rw [show growMapsize s.mapSize s.maxMapSize =
        .ok (max (s.mapSize * 2) (s.mapSize + MiB64)) by
      rw [hc]; rfl]
  · intro c hc hlt
    unfold Store.growForRetry
    rw [show growMapsize s.mapSize s.maxMapSize =
        .ok (min (max (s.mapSize * 2) (s.mapSize + MiB64)) c) by
      rw [hc]; simp only [growMapsize, if_neg (Nat.not_le_of_lt hlt)]]

/-- A sample open, writable store used to witness the claim theorems. -/
def sampleStore : Store :=
  { db := [(10, dumps 1), (11, dumps 2)]
    mapSize := 100
    maxMapSize := none
    write_buffer := []
    batch_size := 1000
    autoflush_on_read := true
    readonly := false
    closing := false
    is_closed := false
    readers := 0 }

/-- Witness for C5 at concrete inputs: an unbounded store grows to
`max(2 * 100, 100 + 64MiB)`, and a store at its ceiling fails. -/
theorem C5_resize_algorithm_witness :
    sampleStore.growForRetry =
      .ok { sampleStore with mapSize := max (100 * 2) (100 + MiB64) } ∧
    ({ sampleStore with mapSize := 5, maxMapSize := some 5 } : Store).growForRetry =
      .error (.mapFull, { sampleStore with mapSize := 5, maxMapSize := some 5 }) :=
  ⟨(C5_resize_algorithm sampleStore).2.2.1 rfl,
   (C5_resize_algorithm { sampleStore with mapSize := 5, maxMapSize := some 5 }).2.1
     ⟨5, rfl, by decide⟩⟩

/-- C9: once the store is Closing or Closed, `get`, `exists` and `get_many`
all fail with the store-closed error before touching the buffer or the
engine (the raised error carries the state unchanged). -/
theorem C9_reads_rejected_after_close (fuel : Nat) (s : Store)
    (h : s.closing = true ∨ s.is_closed = true) :
    (∀ k d, s.get fuel k d = some (.error (.closed, s))) ∧
    (∀ k f, s.existsKey fuel k f = some (.error (.closed, s))) ∧
    (∀ keys, s.get_many fuel keys = some (.error (.closed, s))) := by
  have hno : s.notOpen = true := by
    unfold Store.notOpen
    rcases h with h | h <;> simp [h]
  refine ⟨?_, ?_, ?_⟩
  · intro k d
    unfold Store.get
    rw [if_pos hno]
  · intro k f
    unfold Store.existsKey
    rw [if_pos hno]
  · intro keys
    unfold Store.get_many
    rw [if_pos hno]

/-- Witness for C9: a closing store rejects a concrete `get`. -/
theorem C9_reads_rejected_after_close_witness :
    ({ sampleStore with closing := true } : Store).get 5 10 none =
      some (.error (.closed, { sampleStore with closing := true })) :=
  (C9_reads_rejected_after_close 5 { sampleStore with closing := true }
    (Or.inl rfl)).1 10 none

/-- Helper: a `get` on a buffered key answers from the buffer with the
state unchanged, whatever the fuel and the autoflush setting. -/
theorem get_buffer_hit (fuel : Nat) (s : Store) (k : Nat) (e : BufEntry)
    (hopen : s.notOpen = false) (hb : bufGet s.write_buffer k = some e) :
    ∀ d, s.get fuel k d =
      some (match e with
            | .tomb => .ok (d, s)
            | .val p =>
                match loads p with
                | some v => .ok (some v, s)
                | none => .error (.corrupt .buffered, s)) := by
  intro d
  cases e with
  | tomb =>
      unfold Store.get
      rw [if_neg (by rw [hopen]; simp)]
      simp only [hb]
  | val p =>
      unfold Store.get
      rw [if_neg (by rw [hopen]; simp)]
      simp only [hb]
      cases hl : loads p <;> simp [hl]

/-- Helper: an `exists` on a buffered key answers from the buffer with the
state unchanged, whatever the fuel and the flush override. -/
theorem existsKey_buffer_hit (fuel : Nat) (s : Store) (k : Nat) (e : BufEntry)
    (hopen : s.notOpen = false) (hb : bufGet s.write_buffer k = some e) :
    ∀ f, s.existsKey fuel k f =
      some (.ok ((match e with | .val _ => true | .tomb => false), s)) := by
  intro f
  cases e with
  | tomb =>
      unfold Store.existsKey
      rw [if_neg (by rw [hopen]; simp)]
      simp only [hb]
  | val p =>
      unfold Store.existsKey
      rw [if_neg (by rw [hopen]; simp)]
      simp only [hb]

/-- C10: a buffer hit never triggers a flush — when the key is buffered
(value or tombstone), `get` and `exists` answer from the buffer with the
store state returned exactly unchanged, for every fuel, every
`autoflush_on_read` setting contained in `s`, and every `flush` override
passed to `exists`. -/
theorem C10_buffer_hit_no_flush (fuel : Nat) (s : Store) (k : Nat) (e : BufEntry)
    (hopen : s.notOpen = false) (hb : bufGet s.write_buffer k = some e) :
    (∀ d, s.get fuel k d =
      some (match e with
            | .tomb => .ok (d, s)
            | .val p =>
                match loads p with
                | some v => .ok (some v, s)
                | none => .error (.corrupt .buffered, s))) ∧
    (∀ f, s.existsKey fuel k f =
      some (.ok ((match e with | .val _ => true | .tomb => false), s))) :=
  ⟨get_buffer_hit fuel s k e hopen hb, existsKey_buffer_hit fuel s k e hopen hb⟩

/-- Witness for C10: a buffered put at key 1 is served from the buffer with
the state unchanged, for both `flush=True` and `flush=False` overrides. -/
theorem C10_buffer_hit_no_flush_witness :
    (let s := { sampleStore with
                  write_buffer := [(1, BufEntry.val (dumps 7))]
                  autoflush_on_read := false };
     s.get 5 1 none = some (.ok (some 7, s)) ∧
       s.existsKey 5 1 (some true) = some (.ok (true, s)) ∧
       s.existsKey 5 1 (some false) = some (.ok (true, s))) := by
  have h := C10_buffer_hit_no_flush 5
    { sampleStore with
        write_buffer := [(1, BufEntry.val (dumps 7))]
        autoflush_on_read := false }
    1 (BufEntry.val (dumps 7)) rfl rfl
  exact ⟨h.1 none, h.2 (some true), h.2 (some false)⟩

/-- C2: `_flush` is a no-op on an empty buffer; on success it commits every
buffered entry and clears the buffer, changing nothing else; on an
unresolvable storage-full failure (configured ceiling reached while the
batch still does not fit) the map-full error propagates with the buffer and
the committed data untouched; and the grow-and-retry loop always reaches a
decided outcome for some fuel. -/
theorem C2_flush_atomicity (fuel : Nat) (s : Store) :
    (s.write_buffer = [] → s.flushBuffer fuel = some (.ok s)) ∧
    (∀ s', s.flushBuffer fuel = some (.ok s') →
        s'.write_buffer = [] ∧ s'.db = applyBuf s.db s.write_buffer ∧
        s' = { s with db := applyBuf s.db s.write_buffer
                      write_buffer := []
                      mapSize := s'.mapSize } ∧ s.mapSize ≤ s'.mapSize) ∧
    (∀ e s', s.flushBuffer fuel = some (.error (e, s')) →
        e = .mapFull ∧ s'.write_buffer = s.write_buffer ∧ s'.db = s.db ∧
        s' = { s with mapSize := s'.mapSize } ∧
        ∃ c, s.maxMapSize = some c ∧ c ≤ s'.mapSize ∧
          s'.mapSize < dbSize (applyBuf s.db s.write_buffer)) ∧
    (∃ fl r, s.flushBuffer fl = some r) := by
  refine ⟨flushBuffer_empty fuel, ?_, ?_, flushBuffer_total s⟩
  · intro s' h
    rcases flushBuffer_ok h with ⟨hs, hms⟩
    refine ⟨?_, ?_, hs, hms⟩
    · rw [hs]
    · rw [hs]
  · intro e s' h
    rcases flushBuffer_err h with ⟨he, hs, hms, hne, c, hc, hle, hlt⟩
    refine ⟨he, ?_, ?_, hs, c, hc, hle, hlt⟩
    · rw [hs]
    · rw [hs]

/-- Witness for C2: flushing a one-entry buffer commits it and clears the
buffer, growing the map from 1 byte to 64MiB. -/
theorem C2_flush_atomicity_witness :
    (let s := { sampleStore with
                  db := []
                  mapSize := 1
                  write_buffer := [(1, BufEntry.val (dumps 7))] };
     s.flushBuffer 5 = some (.ok { s with db := [(1, dumps 7)]
                                          write_buffer := []
                                          mapSize := 1 + MiB64 }) ∧
       ({ sampleStore with write_buffer := [] } : Store).flushBuffer 5 =
         some (.ok { sampleStore with write_buffer := [] })) := by
  constructor
  · have h := (C2_flush_atomicity 5 { sampleStore with
        db := []
        mapSize := 1
        write_buffer := [(1, BufEntry.val (dumps 7))] }).2.1
    rfl
  · exact (C2_flush_atomicity 5 { sampleStore with write_buffer := [] }).1 rfl

/-! ### C1: buffer overlay semantics of put/delete sequences -/

/-- A single-key operation: `put(k, v)` or `delete(k)`. -/
inductive KOp where
  | putv (v : Nat)
  | delk
deriving DecidableEq, Repr

/-- The buffer entry a single-key operation stages. -/
def entryOfOp : KOp → BufEntry
  | .putv v => .val (dumps v)
  | .delk => .tomb

/-- Run a sequence of put/delete operations on one key through the API. -/
def applyKOps (fuel : Nat) (s : Store) (k : Nat) :
    List KOp → Option (Except (Err × Store) Store)
  | [] => some (.ok s)
  | op :: rest =>
      match (match op with
             | .putv v => s.put fuel k v
             | .delk => s.delete fuel k) with
      | none => none
      | some (.error es) => some (.error es)
      | some (.ok s1) => applyKOps fuel s1 k rest

/-- While the buffer stays below the batch threshold, a sequence of
put/delete on one key only restages that key's buffer entry, flushing
nothing and touching nothing else. -/
theorem applyKOps_ok (fuel : Nat) (k : Nat) (ops : List KOp) :
    ∀ (s : Store), s.notOpen = false → s.readonly = false →
      (∀ e, (bufSet s.write_buffer k e).length < s.batch_size) →
      applyKOps fuel s k ops =
        some (.ok { s with
                    write_buffer := ops.foldl (fun b op => bufSet b k (entryOfOp op)) s.write_buffer }) := by
  induction ops with
  | nil => intro s _ _ _; rfl
  | cons op rest ih =>
      intro s hopen hro hinv
      have hstep :
          (match op with
           | .putv v => s.put fuel k v
           | .delk => s.delete fuel k) =
          some (.ok { s with write_buffer := bufSet s.write_buffer k (entryOfOp op) }) := by
        cases op with
        | putv v =>
            show s.put fuel k v = _
            unfold Store.put
            simp only [hopen, hro, Bool.false_eq_true, if_false]
            rw [if_neg (Nat.not_le_of_lt (hinv (.val (dumps v))))]
            rfl
        | delk =>
            show s.delete fuel k = _
            unfold Store.delete
            simp only [hopen, hro, Bool.false_eq_true, if_false]
            rw [if_neg (Nat.not_le_of_lt (hinv .tomb))]
            rfl
      show (match (match op with
             | KOp.putv v => s.put fuel k v
             | KOp.delk => s.delete fuel k) with
        | none => none
        | some (Except.error es) => some (Except.error es)
        | some (Except.ok s1) => applyKOps fuel s1 k rest) = _
      rw [hstep]
      show applyKOps fuel { s with write_buffer := bufSet s.write_buffer k (entryOfOp op) } k rest = _
      rw [ih { s with write_buffer := bufSet s.write_buffer k (entryOfOp op) } hopen hro ?_]
      · rfl
      · intro e
        have hmem : (alSet s.write_buffer k (entryOfOp op)).any (fun q => q.1 == k) = true :=
          alSet_any_self s.write_buffer k (entryOfOp op)
        show (alSet (alSet s.write_buffer k (entryOfOp op)) k e).length < s.batch_size
        rw [alSet_length_mem _ _ _ hmem]
        exact hinv (entryOfOp op)

/-- The buffer entry for `k` after a one-key operation sequence is the last
operation's entry. -/
theorem foldl_bufSet_last (k : Nat) (ops : List KOp) (lastOp : KOp) (b : Buffer) :
    bufGet ((ops ++ [lastOp]).foldl (fun b op => bufSet b k (entryOfOp op)) b) k =
      some (entryOfOp lastOp) := by
  rw [List.foldl_append]
  exact bufGet_bufSet_self _ k _

/-- C1: for any nonempty sequence of put/delete on one key before any flush
(the buffer stays below the batch threshold), only the final operation is
observable: a final `put(k, v)` makes `get` return `v` and `exists` return
true; a final `delete(k)` makes `get` return the default and subscript
access raise the key-not-found error. -/
theorem C1_buffer_overlay (fuel : Nat) (s : Store) (k : Nat)
    (ops : List KOp) (lastOp : KOp)
    (hopen : s.notOpen = false) (hro : s.readonly = false)
    (hlen : s.write_buffer.length + 1 < s.batch_size) :
    ∃ s', applyKOps fuel s k (ops ++ [lastOp]) = some (.ok s') ∧
      ((∀ v, lastOp = .putv v →
          (∀ d, s'.get fuel k d = some (.ok (some v, s'))) ∧
          (∀ f, s'.existsKey fuel k f = some (.ok (true, s')))) ∧
       (lastOp = .delk →
          (∀ d, s'.get fuel k d = some (.ok (d, s'))) ∧
          (∀ f, s'.existsKey fuel k f = some (.ok (false, s'))) ∧
          s'.getItem fuel k = some (.error (.keyNotFound, s')))) := by
  have hinv : ∀ e, (bufSet s.write_buffer k e).length < s.batch_size := by
    intro e
    exact Nat.lt_of_le_of_lt (alSet_length_le s.write_buffer k e) hlen
  refine ⟨{ s with
            write_buffer := (ops ++ [lastOp]).foldl (fun b op => bufSet b k (entryOfOp op)) s.write_buffer },
    applyKOps_ok fuel k (ops ++ [lastOp]) s hopen hro hinv, ?_, ?_⟩
  · intro v hv
    have hb : bufGet ((ops ++ [lastOp]).foldl
        (fun b op => bufSet b k (entryOfOp op)) s.write_buffer) k =
        some (.val (dumps v)) := by
      rw [foldl_bufSet_last, hv]
      rfl
    exact ⟨fun d => get_buffer_hit fuel
        { s with
          write_buffer := (ops ++ [lastOp]).foldl (fun b op => bufSet b k (entryOfOp op)) s.write_buffer }
        k (.val (dumps v)) hopen hb d,
      fun f => existsKey_buffer_hit fuel
        { s with
          write_buffer := (ops ++ [lastOp]).foldl (fun b op => bufSet b k (entryOfOp op)) s.write_buffer }
        k (.val (dumps v)) hopen hb f⟩
  · intro hv
    have hb : bufGet ((ops ++ [lastOp]).foldl
        (fun b op => bufSet b k (entryOfOp op)) s.write_buffer) k =
        some .tomb := by
      rw [foldl_bufSet_last, hv]
      rfl
    refine ⟨fun d => get_buffer_hit fuel
        { s with
          write_buffer := (ops ++ [lastOp]).foldl (fun b op => bufSet b k (entryOfOp op)) s.write_buffer }
        k .tomb hopen hb d,
      fun f => existsKey_buffer_hit fuel
        { s with
          write_buffer := (ops ++ [lastOp]).foldl (fun b op => bufSet b k (entryOfOp op)) s.write_buffer }
        k .tomb hopen hb f, ?_⟩
    unfold Store.getItem
    rw [get_buffer_hit fuel
        { s with
          write_buffer := (ops ++ [lastOp]).foldl (fun b op => bufSet b k (entryOfOp op)) s.write_buffer }
        k .tomb hopen hb none]

/-- Witness for C1: after `put 3; delete; put 7` on key 1, `get` returns 7
and `exists` is true; after `put 3; delete`, `get` falls back to the
default and subscript access raises key-not-found. -/
theorem C1_buffer_overlay_witness :
    (∃ s', applyKOps 5 sampleStore 1 ([KOp.putv 3, KOp.delk] ++ [KOp.putv 7]) =
        some (.ok s') ∧
      s'.get 5 1 none = some (.ok (some 7, s')) ∧
      s'.existsKey 5 1 none = some (.ok (true, s'))) ∧
    (∃ s', applyKOps 5 sampleStore 1 ([KOp.putv 3] ++ [KOp.delk]) =
        some (.ok s') ∧
      s'.get 5 1 (some 42) = some (.ok (some 42, s')) ∧
      s'.getItem 5 1 = some (.error (.keyNotFound, s'))) := by
  constructor
  · have h := C1_buffer_overlay 5 sampleStore 1 [KOp.putv 3, KOp.delk] (KOp.putv 7)
      rfl rfl (by decide)
    rcases h with ⟨s', h1, h2, _⟩
    exact ⟨s', h1, (h2 7 rfl).1 none, (h2 7 rfl).2 none⟩
  · have h := C1_buffer_overlay 5 sampleStore 1 [KOp.putv 3] KOp.delk
      rfl rfl (by decide)
    rcases h with ⟨s', h1, _, h3⟩
    exact ⟨s', h1, (h3 rfl).1 (some 42), (h3 rfl).2.2⟩

/-! ### C7: flush idempotence of visibility -/

/-- Helper: `get` on a buffer miss reads the engine after the optional
flush, rebalancing the reader counter. -/
theorem get_buffer_miss (fuel : Nat) (t : Store) (k : Nat) (d : Option Nat)
    (t1 : Store) (hopen : t.notOpen = false)
    (hb : bufGet t.write_buffer k = none)
    (hfl : (if t.autoflush_on_read then t.flushBuffer fuel else some (.ok t)) =
      some (.ok t1)) :
    t.get fuel k d =
      some (match dbGet t1.db k with
            | none => .ok (d, { t1 with readers := t1.readers + 1 - 1 })
            | some p =>
                match loads p with
                | some v => .ok (some v, { t1 with readers := t1.readers + 1 - 1 })
                | none => .error (.corrupt .persisted,
                    { t1 with readers := t1.readers + 1 - 1 })) := by
  unfold Store.get
  rw [if_neg (by rw [hopen]; simp)]
  simp only [hb]
  rw [hfl]
  show (match dbGet t1.db k with
        | none => some (Except.ok (d, { t1 with readers := t1.readers + 1 - 1 }))
        | some p =>
            match loads p with
            | some v =>
                some (Except.ok (some v, { t1 with readers := t1.readers + 1 - 1 }))
            | none =>
                some (Except.error (Err.corrupt ErrCtx.persisted,
                  { t1 with readers := t1.readers + 1 - 1 }))) = _
  cases hd : dbGet t1.db k with
  | none => rfl
  | some p =>
      show (match loads p with
            | some v =>
                some (Except.ok (some v, { t1 with readers := t1.readers + 1 - 1 }))
            | none =>
                some (Except.error (Err.corrupt ErrCtx.persisted,
                  { t1 with readers := t1.readers + 1 - 1 }))) =
        some (match loads p with
              | some v => Except.ok (some v, { t1 with readers := t1.readers + 1 - 1 })
              | none => Except.error (Err.corrupt ErrCtx.persisted,
                  { t1 with readers := t1.readers + 1 - 1 }))
      cases loads p <;> rfl

/-- Helper: `exists` on a buffer miss checks the engine after the optional
flush, rebalancing the reader counter. -/
theorem existsKey_buffer_miss (fuel : Nat) (t : Store) (k : Nat) (f : Option Bool)
    (t1 : Store) (hopen : t.notOpen = false)
    (hb : bufGet t.write_buffer k = none)
    (hfl : (if f.getD t.autoflush_on_read then t.flushBuffer fuel else some (.ok t)) =
      some (.ok t1)) :
    t.existsKey fuel k f =
      some (.ok ((dbGet t1.db k).isSome, { t1 with readers := t1.readers + 1 - 1 })) := by
  unfold Store.existsKey
  rw [if_neg (by rw [hopen]; simp)]
  simp only [hb]
  rw [hfl]

/-- The caller-visible outcome of subscript access as a function of the
`get` outcome: a missing key turns into the key-not-found error. -/
def itemOutcome : Except Err (Option Nat) → Except Err Nat
  | .ok none => .error .keyNotFound
  | .ok (some v) => .ok v
  | .error e => .error e

/-- Subscript access is determined by the `get` outcome. -/
theorem getItem_proj (fuel : Nat) (t : Store) (k : Nat) :
    (t.getItem fuel k).map valueOfR =
      ((t.get fuel k none).map valueOfR).map itemOutcome := by
  unfold Store.getItem
  cases hg : t.get fuel k none with
  | none => rfl
  | some r =>
      cases r with
      | error es => rfl
      | ok p =>
          rcases p with ⟨ov, st⟩
          cases ov <;> rfl

/-- C7: a successful flush does not change the caller-visible outcome of
`get`, `exists`, or subscript access for any key: reading through the
buffer before the flush and through the engine after it yield the same
value, boolean, or error (a buffered record that deserializes is required,
since flushing legitimately retags a corrupt record's context from
"buffered" to "persisted"). -/
theorem C7_flush_visibility (fuel : Nat) (s s' : Store) (k : Nat)
    (hopen : s.notOpen = false) (hwf : BufWF s.write_buffer)
    (hfl : s.flushBuffer fuel = some (.ok s'))
    (hload : ∀ p, overlayValue s k = some p → (loads p).isSome) :
    (∀ d, (s.get fuel k d).map valueOfR = (s'.get fuel k d).map valueOfR) ∧
    (∀ f, (s.existsKey fuel k f).map valueOfR = (s'.existsKey fuel k f).map valueOfR) ∧
    ((s.getItem fuel k).map valueOfR = (s'.getItem fuel k).map valueOfR) := by
  rcases flushBuffer_ok hfl with ⟨hs', _⟩
  have hopen' : s'.notOpen = false := by rw [hs']; exact hopen
  have hbuf' : s'.write_buffer = [] := by rw [hs']
  have hmiss' : bufGet s'.write_buffer k = none := by rw [hbuf']; rfl
  have hdbk : dbGet s'.db k = overlayValue s k := by
    rw [hs']
    exact dbGet_applyBuf s.db s.write_buffer k hwf
  have hfl' : ∀ b : Bool, (if b then s'.flushBuffer fuel else some (.ok s')) =
      some (.ok s') := by
    intro b
    cases b
    · rfl
    · exact flushBuffer_empty fuel hbuf'
  have hget : ∀ d, (s.get fuel k d).map valueOfR = (s'.get fuel k d).map valueOfR := by
    intro d
    rw [get_buffer_miss fuel s' k d s' hopen' hmiss' (hfl' s'.autoflush_on_read)]
    cases hb : bufGet s.write_buffer k with
    | some e =>
        cases e with
        | val p =>
            have hov : overlayValue s k = some p := by
              unfold overlayValue
              rw [hb]
            obtain ⟨v, hv⟩ : ∃ v, loads p = some v :=
              Option.isSome_iff_exists.mp (hload p hov)
            rw [get_buffer_hit fuel s k (.val p) hopen hb d]
            simp only [hdbk, hov, hv, Option.map_some]
            rfl
        | tomb =>
            have hov : overlayValue s k = none := by
              unfold overlayValue
              rw [hb]
            rw [get_buffer_hit fuel s k .tomb hopen hb d]
            simp only [hdbk, hov, Option.map_some]
            rfl
    | none =>
        have hov : overlayValue s k = dbGet s.db k := by
          unfold overlayValue
          rw [hb]
        cases hauto : s.autoflush_on_read with
        | true =>
            rw [get_buffer_miss fuel s k d s' hopen hb (by rw [hauto]; exact hfl)]
        | false =>
            rw [get_buffer_miss fuel s k d s hopen hb (by rw [hauto]; rfl)]
            rw [hdbk, hov]
            cases hd : dbGet s.db k with
            | none => rfl
            | some p => cases hl : loads p <;> simp [hl, valueOfR]
  have hex : ∀ f, (s.existsKey fuel k f).map valueOfR =
      (s'.existsKey fuel k f).map valueOfR := by
    intro f
    rw [existsKey_buffer_miss fuel s' k f s' hopen' hmiss'
      (hfl' (f.getD s'.autoflush_on_read))]
    cases hb : bufGet s.write_buffer k with
    | some e =>
        rw [existsKey_buffer_hit fuel s k e hopen hb f]
        cases e with
        | val p =>
            have hov : overlayValue s k = some p := by
              unfold overlayValue
              rw [hb]
            rw [hdbk, hov]
            rfl
        | tomb =>
            have hov : overlayValue s k = none := by
              unfold overlayValue
              rw [hb]
            rw [hdbk, hov]
            rfl
    | none =>
        have hov : overlayValue s k = dbGet s.db k := by
          unfold overlayValue
          rw [hb]
        cases hsh : f.getD s.autoflush_on_read with
        | true =>
            rw [existsKey_buffer_miss fuel s k f s' hopen hb (by rw [hsh]; exact hfl)]
        | false =>
            rw [existsKey_buffer_miss fuel s k f s hopen hb (by rw [hsh]; rfl)]
            rw [hdbk, hov]
            rfl
  exact ⟨hget, hex, by rw [getItem_proj, getItem_proj, hget none]⟩

/-- Witness for C7: with value 7 buffered at key 1 and 42 committed at
key 2, flushing changes neither the `get` outcome at the buffered key 1 nor
the `exists` and subscript outcomes at the absent key 3. -/
theorem C7_flush_visibility_witness :
    (({ sampleStore with
          db := [(2, dumps 42)]
          write_buffer := [(1, BufEntry.val (dumps 7))] } : Store).flushBuffer 5 =
      some (.ok ({ sampleStore with
                     db := [(2, dumps 42), (1, dumps 7)] } : Store))) ∧
    ((({ sampleStore with
           db := [(2, dumps 42)]
           write_buffer := [(1, BufEntry.val (dumps 7))] } : Store).get 5 1 none).map valueOfR =
      (({ sampleStore with
            db := [(2, dumps 42), (1, dumps 7)] } : Store).get 5 1 none).map valueOfR) ∧
    ((({ sampleStore with
           db := [(2, dumps 42)]
           write_buffer := [(1, BufEntry.val (dumps 7))] } : Store).existsKey 5 3 none).map valueOfR =
      (({ sampleStore with
            db := [(2, dumps 42), (1, dumps 7)] } : Store).existsKey 5 3 none).map valueOfR) ∧
    ((({ sampleStore with
           db := [(2, dumps 42)]
           write_buffer := [(1, BufEntry.val (dumps 7))] } : Store).getItem 5 3).map valueOfR =
      (({ sampleStore with
            db := [(2, dumps 42), (1, dumps 7)] } : Store).getItem 5 3).map valueOfR) := by
  have hfl : ({ sampleStore with
                  db := [(2, dumps 42)]
                  write_buffer := [(1, BufEntry.val (dumps 7))] } : Store).flushBuffer 5 =
      some (.ok ({ sampleStore with
                     db := [(2, dumps 42), (1, dumps 7)] } : Store)) := rfl
  refine ⟨hfl, ?_, ?_, ?_⟩
  · exact (C7_flush_visibility 5
      { sampleStore with
          db := [(2, dumps 42)]
          write_buffer := [(1, BufEntry.val (dumps 7))] }
      { sampleStore with db := [(2, dumps 42), (1, dumps 7)] }
      1 rfl (by decide) hfl
      (fun p hp => by
        have h2 : some (dumps 7) = some p := hp
        exact (Option.some.inj h2) ▸ rfl)).1 none
  · exact (C7_flush_visibility 5
      { sampleStore with
          db := [(2, dumps 42)]
          write_buffer := [(1, BufEntry.val (dumps 7))] }
      { sampleStore with db := [(2, dumps 42), (1, dumps 7)] }
      3 rfl (by decide) hfl
      (fun p hp => by
        have h2 : (none : Option PVal) = some p := hp
        cases h2)).2.1 none
  · exact (C7_flush_visibility 5
      { sampleStore with
          db := [(2, dumps 42)]
          write_buffer := [(1, BufEntry.val (dumps 7))] }
      { sampleStore with db := [(2, dumps 42), (1, dumps 7)] }
      3 rfl (by decide) hfl
      (fun p hp => by
        have h2 : (none : Option PVal) = some p := hp
        cases h2)).2.2

/-! ### C3: put_many -/

/-- The pre-flush step of `put_many` (`if self.write_buffer: self._flush()`)
coincides with `_flush`, which already no-ops on an empty buffer. -/
theorem put_many_preflush (fuel : Nat) (s : Store) :
    (if s.write_buffer.isEmpty then some (Except.ok s) else s.flushBuffer fuel) =
      s.flushBuffer fuel := by
  by_cases hb : s.write_buffer.isEmpty
  · rw [if_pos hb, flushBuffer_empty fuel (List.isEmpty_iff.mp hb)]
  · rw [if_neg hb]

/-- C3: a successful `put_many` first commits the pre-existing buffer, then
commits all the call's items in one transaction, with last-write-wins on
duplicate keys (the committed record of every key is decided by the final
item naming it, falling back to the pre-call overlay value); on any failure
(closed, read-only, or unresolvable storage-full) the overlay-visible value
of every key is exactly what it was before the call — no item of the call
is visible and previously committed keys are unchanged. -/
theorem C3_put_many_atomicity (fuel : Nat) (s : Store)
    (items : List (Nat × Option Nat)) (hwf : BufWF s.write_buffer) :
    (∀ s', s.put_many fuel items = some (.ok s') →
        s'.db = applyBuf (applyBuf s.db s.write_buffer) (normPickle items) ∧
        s'.write_buffer = [] ∧
        (∀ k, dbGet s'.db k =
          (match lastEntry (normPickle items) k with
           | some (.val p) => some p
           | some .tomb => none
           | none => overlayValue s k)) ∧
        s' = { s with db := applyBuf (applyBuf s.db s.write_buffer) (normPickle items)
                      write_buffer := []
                      mapSize := s'.mapSize }) ∧
    (∀ e s', s.put_many fuel items = some (.error (e, s')) →
        (e = .closed ∨ e = .readOnly ∨ e = .mapFull) ∧
        (∀ k, overlayValue s' k = overlayValue s k)) := by
  constructor
  · intro s' h
    unfold Store.put_many at h
    by_cases hno : s.notOpen
    · rw [if_pos hno] at h
      simp at h
    · rw [if_neg hno] at h
      by_cases hro : s.readonly
      · rw [if_pos hro] at h
        simp at h
      · rw [if_neg hro] at h
        rw [put_many_preflush fuel s] at h
        cases hf : s.flushBuffer fuel with
        | none => rw [hf] at h; cases h
        | some r =>
            rw [hf] at h
            cases r with
            | error es => simp at h
            | ok s1 =>
                replace h :
                    (match txnLoop fuel s1.db (normPickle items) s1.mapSize s1.maxMapSize with
                     | none => none
                     | some (.ok (d', ms')) =>
                         some (Except.ok { s1 with db := d', mapSize := ms' })
                     | some (.error ms') =>
                         some (Except.error (Err.mapFull, { s1 with mapSize := ms' }))) =
                      some (Except.ok s') := h
                cases ht : txnLoop fuel s1.db (normPickle items) s1.mapSize s1.maxMapSize with
                | none => rw [ht] at h; cases h
                | some r2 =>
                    rw [ht] at h
                    cases r2 with
                    | error ms' => simp at h
                    | ok p =>
                        rcases p with ⟨d', ms'⟩
                        simp only [Option.some.injEq, Except.ok.injEq] at h
                        subst h
                        rcases txnLoop_ok ht with ⟨hd', _, _⟩
                        subst hd'
                        rcases flushBuffer_ok hf with ⟨hs1, _⟩
                        have hdb1 : s1.db = applyBuf s.db s.write_buffer := by rw [hs1]
                        have hbuf1 : s1.write_buffer = [] := by rw [hs1]
                        refine ⟨by rw [hdb1], by rw [hbuf1], ?_, ?_⟩
                        · intro k
                          show dbGet (applyBuf s1.db (normPickle items)) k = _
                          rw [dbGet_applyBuf_lastEntry s1.db (normPickle items) k]
                          have hfb : dbGet s1.db k = overlayValue s k := by
                            rw [hs1]
                            exact dbGet_applyBuf s.db s.write_buffer k hwf
                          cases lastEntry (normPickle items) k with
                          | none => exact hfb
                          | some e => cases e <;> rfl
                        · rw [hs1]
  · intro e s' h
    unfold Store.put_many at h
    by_cases hno : s.notOpen
    · rw [if_pos hno] at h
      simp only [Option.some.injEq, Except.error.injEq, Prod.mk.injEq] at h
      rcases h with ⟨he, hs⟩
      subst hs
      exact ⟨Or.inl he.symm, fun k => rfl⟩
    · rw [if_neg hno] at h
      by_cases hro : s.readonly
      · rw [if_pos hro] at h
        simp only [Option.some.injEq, Except.error.injEq, Prod.mk.injEq] at h
        rcases h with ⟨he, hs⟩
        subst hs
        exact ⟨Or.inr (Or.inl he.symm), fun k => rfl⟩
      · rw [if_neg hro] at h
        rw [put_many_preflush fuel s] at h
        cases hf : s.flushBuffer fuel with
        | none => rw [hf] at h; cases h
        | some r =>
            rw [hf] at h
            cases r with
            | error es =>
                rcases es with ⟨e1, st⟩
                simp only [Option.some.injEq, Except.error.injEq, Prod.mk.injEq] at h
                rcases h with ⟨he, hs⟩
                subst hs
                rcases flushBuffer_err hf with ⟨he1, hst, _, _, _⟩
                refine ⟨Or.inr (Or.inr (he ▸ he1)), ?_⟩
                intro k
                rw [hst]
                rfl
            | ok s1 =>
                replace h :
                    (match txnLoop fuel s1.db (normPickle items) s1.mapSize s1.maxMapSize with
                     | none => none
                     | some (.ok (d', ms')) =>
                         some (Except.ok { s1 with db := d', mapSize := ms' })
                     | some (.error ms') =>
                         some (Except.error (Err.mapFull, { s1 with mapSize := ms' }))) =
                      some (Except.error (e, s')) := h
                cases ht : txnLoop fuel s1.db (normPickle items) s1.mapSize s1.maxMapSize with
                | none => rw [ht] at h; cases h
                | some r2 =>
                    rw [ht] at h
                    cases r2 with
                    | ok p => rcases p with ⟨d', ms'⟩; simp at h
                    | error ms' =>
                        simp only [Option.some.injEq, Except.error.injEq, Prod.mk.injEq] at h
                        rcases h with ⟨he, hs⟩
                        subst hs
                        rcases flushBuffer_ok hf with ⟨hs1, _⟩
                        refine ⟨Or.inr (Or.inr he.symm), ?_⟩
                        intro k
                        show (match bufGet s1.write_buffer k with
                              | some (.val p) => some p
                              | some .tomb => none
                              | none => dbGet s1.db k) = overlayValue s k
                        have hbuf1 : s1.write_buffer = [] := by rw [hs1]
                        rw [hbuf1]
                        show dbGet s1.db k = overlayValue s k
                        rw [hs1]
                        exact dbGet_applyBuf s.db s.write_buffer k hwf

/-- Witness for C3: `put_many [(3,1), (3,9), delete 2]` over a store with a
buffered put at key 1 and committed key 2 commits the buffered entry,
applies last-write-wins (key 3 ends at 9), deletes key 2; and over a store
at its map-size ceiling the call fails with map-full leaving the overlay
unchanged. -/
theorem C3_put_many_atomicity_witness :
    (∃ s', ({ sampleStore with
                db := [(2, dumps 5)]
                write_buffer := [(1, BufEntry.val (dumps 7))] } : Store).put_many 5
          [(3, some 1), (3, some 9), (2, none)] = some (.ok s') ∧
        dbGet s'.db 3 = some (dumps 9) ∧ dbGet s'.db 2 = none ∧
        dbGet s'.db 1 = some (dumps 7) ∧ s'.write_buffer = []) ∧
    (∃ s', ({ sampleStore with
                db := [(2, dumps 5)]
                mapSize := 10
                maxMapSize := some 10 } : Store).put_many 5 [(9, some 100)] =
          some (.error (.mapFull, s')) ∧
        overlayValue s' 2 = some (dumps 5)) := by
  constructor
  · have h := (C3_put_many_atomicity 5
      { sampleStore with
          db := [(2, dumps 5)]
          write_buffer := [(1, BufEntry.val (dumps 7))] }
      [(3, some 1), (3, some 9), (2, none)] (by decide)).1
    refine ⟨_, rfl, ?_, ?_, ?_, ?_⟩
    · exact (h _ rfl).2.2.1 3
    · exact (h _ rfl).2.2.1 2
    · exact (h _ rfl).2.2.1 1
    · exact (h _ rfl).2.1
  · have h := (C3_put_many_atomicity 5
      { sampleStore with
          db := [(2, dumps 5)]
          mapSize := 10
          maxMapSize := some 10 }
      [(9, some 100)] (by decide)).2
    refine ⟨_, rfl, ((h _ _ rfl).2 2).trans ?_⟩
    rfl

/-! ### C6: get_many characterization -/

/-- What the buffer scan contributes for one key: the buffered pickled
value on a value hit, nothing otherwise. -/
def scanHit (buf : Buffer) (k : Nat) : Option PVal :=
  match bufGet buf k with
  | some (BufEntry.val p) => some p
  | _ => none

/-- Invariant of the buffer-scan fold of `get_many`: starting from a state
whose seen-set equals its lookup list, the fold yields the accumulated
first-occurrence buffered hits and the deduplicated engine-lookup list. -/
theorem gmFold_char (buf : Buffer) (nks : List Nat) :
    ∀ fp ktc, ktc.Nodup →
      ∃ fp' ktc',
        nks.foldl (gmStep buf) (fp, ktc, ktc) = (fp', ktc', ktc') ∧
        (∀ k, alGet fp' k =
          (alGet fp k).or (if k ∈ nks then scanHit buf k else none)) ∧
        (∀ k, k ∈ ktc' ↔ k ∈ ktc ∨ (k ∈ nks ∧ bufGet buf k = none)) ∧
        ktc'.Nodup := by
  induction nks with
  | nil =>
      intro fp ktc hnd
      refine ⟨fp, ktc, rfl, ?_, ?_, hnd⟩
      · intro k
        simp [Option.or_none]
      · intro k
        simp
  | cons k0 rest ih =>
      intro fp ktc hnd
      show ∃ fp' ktc', rest.foldl (gmStep buf) (gmStep buf (fp, ktc, ktc) k0) = _ ∧ _
      cases hb : bufGet buf k0 with
      | some e =>
          cases e with
          | val p =>
              by_cases hhit : fp.any (fun q => q.1 == k0)
              · have hstep : gmStep buf (fp, ktc, ktc) k0 = (fp, ktc, ktc) := by
                  unfold gmStep
                  rw [hb]
                  simp only [if_pos hhit]
                rw [hstep]
                rcases ih fp ktc hnd with ⟨fp', ktc', heq, hfp, hktc, hnd'⟩
                refine ⟨fp', ktc', heq, ?_, ?_, hnd'⟩
                · intro k
                  rw [hfp k]
                  by_cases hk : k = k0
                  · subst hk
                    have : (alGet fp k).isSome = true := by
                      rw [alGet_isSome_eq_any]
                      exact hhit
                    rcases Option.isSome_iff_exists.mp this with ⟨v, hv⟩
                    rw [hv]
                    rfl
                  · simp [hk]
                · intro k
                  rw [hktc k]
                  by_cases hk : k = k0
                  · subst hk
                    simp [hb]
                  · simp [hk]
              · have hstep : gmStep buf (fp, ktc, ktc) k0 = (fp ++ [(k0, p)], ktc, ktc) := by
                  unfold gmStep
                  rw [hb]
                  simp only [if_neg hhit]
                rw [hstep]
                rcases ih (fp ++ [(k0, p)]) ktc hnd with ⟨fp', ktc', heq, hfp, hktc, hnd'⟩
                refine ⟨fp', ktc', heq, ?_, ?_, hnd'⟩
                · intro k
                  rw [hfp k, alGet_append]
                  by_cases hk : k = k0
                  · subst hk
                    have hnone : alGet fp k = none := by
                      rw [alGet_eq_none_iff_not_any]
                      exact Bool.not_eq_true _ ▸ hhit
                    rw [hnone]
                    show (alGet [(k, p)] k).or _ = _
                    rw [show alGet [(k, p)] k = some p from alGet_alSet_self [] k p]
                    show some p = _
                    simp [scanHit, hb]
                  · rw [show alGet [(k0, p)] k = none by
                      rw [alGet_cons, if_neg (fun hh => hk hh.symm)]; rfl]
                    rw [Option.or_none]
                    simp [hk]
                · intro k
                  rw [hktc k]
                  by_cases hk : k = k0
                  · subst hk
                    simp [hb]
                  · simp [hk]
          | tomb =>
              have hstep : gmStep buf (fp, ktc, ktc) k0 = (fp, ktc, ktc) := by
                unfold gmStep
                rw [hb]
              rw [hstep]
              rcases ih fp ktc hnd with ⟨fp', ktc', heq, hfp, hktc, hnd'⟩
              refine ⟨fp', ktc', heq, ?_, ?_, hnd'⟩
              · intro k
                rw [hfp k]
                by_cases hk : k = k0
                · subst hk
                  simp [scanHit, hb]
                · simp [hk]
              · intro k
                rw [hktc k]
                by_cases hk : k = k0
                · subst hk
                  simp [hb]
                · simp [hk]
      | none =>
          by_cases hseen : k0 ∈ ktc
          · have hstep : gmStep buf (fp, ktc, ktc) k0 = (fp, ktc, ktc) := by
              unfold gmStep
              rw [hb]
              simp only [if_pos hseen]
            rw [hstep]
            rcases ih fp ktc hnd with ⟨fp', ktc', heq, hfp, hktc, hnd'⟩
            refine ⟨fp', ktc', heq, ?_, ?_, hnd'⟩
            · intro k
              rw [hfp k]
              by_cases hk : k = k0
              · subst hk
                simp [scanHit, hb]
              · simp [hk]
            · intro k
              rw [hktc k]
              by_cases hk : k = k0
              · subst hk
                simp [hb, hseen]
              · simp [hk]
          · have hstep : gmStep buf (fp, ktc, ktc) k0 = (fp, ktc ++ [k0], ktc ++ [k0]) := by
              unfold gmStep
              rw [hb]
              simp only [if_neg hseen]
            rw [hstep]
            have hnd2 : (ktc ++ [k0]).Nodup := by
              rw [List.nodup_append]
              exact ⟨hnd, List.nodup_singleton k0, by simpa using hseen⟩
            rcases ih fp (ktc ++ [k0]) hnd2 with ⟨fp', ktc', heq, hfp, hktc, hnd'⟩
            refine ⟨fp', ktc', heq, ?_, ?_, hnd'⟩
            · intro k
              rw [hfp k]
              by_cases hk : k = k0
              · subst hk
                simp [scanHit, hb]
              · simp [hk]
            · intro k
              rw [hktc k]
              by_cases hk : k = k0
              · subst hk
                simp [hb]
              · simp [hk]

/-- Characterization of the buffer scan of `get_many`: the buffered-hit map
carries exactly the value hits among the requested keys, and the
engine-lookup list is exactly the deduplicated buffer misses. -/
theorem gmPartition_char (buf : Buffer) (nks : List Nat) :
    (∀ k, alGet (gmPartition buf nks).1 k =
      (if k ∈ nks then scanHit buf k else none)) ∧
    (∀ k, k ∈ (gmPartition buf nks).2 ↔ (k ∈ nks ∧ bufGet buf k = none)) ∧
    (gmPartition buf nks).2.Nodup := by
  rcases gmFold_char buf nks [] [] List.nodup_nil with ⟨fp', ktc', heq, hfp, hktc, hnd⟩
  have h1 : gmPartition buf nks = (fp', ktc') := by
    unfold gmPartition
    rw [heq]
  rw [h1]
  refine ⟨?_, ?_, hnd⟩
  · intro k
    have := hfp k
    rwa [show alGet ([] : List (Nat × PVal)) k = none from rfl, Option.none_or] at this
  · intro k
    rw [hktc k]
    simp

/-- Unpickling the buffered hits succeeds pointwise. -/
theorem loadAll_ok_char {fp : List (Nat × PVal)} {res : List (Nat × Nat)}
    (h : loadAll fp = .ok res) :
    ∀ k, alGet res k = (alGet fp k).bind loads := by
  induction fp generalizing res with
  | nil =>
      cases h
      intro k
      rfl
  | cons q rest ih =>
      rcases q with ⟨k0, p⟩
      unfold loadAll at h
      cases hl : loads p with
      | none => rw [hl] at h; cases h
      | some v =>
          rw [hl] at h
          cases hrest : loadAll rest with
          | error k' => rw [hrest] at h; cases h
          | ok tl =>
              rw [hrest] at h
              simp only [Except.ok.injEq] at h
              subst h
              intro k
              rw [alGet_cons, alGet_cons]
              by_cases hk : k0 = k
              · rw [if_pos hk, if_pos hk]
                rw [show (some p).bind loads = loads p from rfl, hl]
              · rw [if_neg hk, if_neg hk]
                exact ih hrest k

/-- The engine-lookup loop adds exactly the committed, deserializable
records of the requested keys that are not already found, never overriding
an existing entry. -/
theorem engineLookup_ok_char {d : DB} {ktc : List Nat} {acc res : List (Nat × Nat)}
    (h : engineLookup d ktc acc = .ok res) :
    ∀ k, alGet res k =
      (alGet acc k).or (if k ∈ ktc then (dbGet d k).bind loads else none) := by
  induction ktc generalizing acc with
  | nil =>
      cases h
      intro k
      simp [Option.or_none]
  | cons k0 rest ih =>
      unfold engineLookup at h
      cases hd : dbGet d k0 with
      | none =>
          rw [hd] at h
          replace h : engineLookup d rest acc = Except.ok res := h
          intro k
          rw [ih h k]
          by_cases hk : k = k0
          · subst hk
            rw [hd]
            by_cases hmem : k ∈ rest <;> simp [hmem]
          · simp [hk]
      | some p =>
          rw [hd] at h
          replace h :
              (if acc.any (fun q => q.1 == k0) then engineLookup d rest acc
               else
                 match loads p with
                 | none => Except.error k0
                 | some v => engineLookup d rest (acc ++ [(k0, v)])) =
                Except.ok res := h
          by_cases hhit : acc.any (fun q => q.1 == k0)
          · rw [if_pos hhit] at h
            intro k
            rw [ih h k]
            by_cases hk : k = k0
            · subst hk
              have : (alGet acc k).isSome = true := by
                rw [alGet_isSome_eq_any]
                exact hhit
              rcases Option.isSome_iff_exists.mp this with ⟨v, hv⟩
              rw [hv]
              rfl
            · simp [hk]
          · rw [if_neg hhit] at h
            cases hl : loads p with
            | none => rw [hl] at h; cases h
            | some v =>
                rw [hl] at h
                intro k
                rw [ih h k, alGet_append]
                by_cases hk : k = k0
                · subst hk
                  have hnone : alGet acc k = none := by
                    rw [alGet_eq_none_iff_not_any]
                    exact Bool.not_eq_true _ ▸ hhit
                  rw [hnone]
                  rw [show alGet [(k, v)] k = some v from alGet_alSet_self [] k v]
                  show some v = _
                  simp [hd, hl]
                · rw [show alGet [(k0, v)] k = none by
                    rw [alGet_cons, if_neg (fun hh => hk hh.symm)]; rfl]
                  rw [Option.or_none]
                  simp [hk]

/-- A successful `gmRead` means the buffered hits all deserialized, the
engine phase (when lookups were pending) succeeded, and the not-found list
is the in-order filter of the original keys against the found map. -/
theorem gmRead_ok_char {s1 : Store} {keys : List RawKey}
    {pr : List (Nat × PVal) × List Nat} {found : List (Nat × Nat)}
    {nf : List RawKey} {s' : Store}
    (h : gmRead s1 keys pr = some (.ok (found, nf, s'))) :
    ∃ found0, loadAll pr.1 = .ok found0 ∧
      ((pr.2.isEmpty = true ∧ found = found0) ∨
        (pr.2.isEmpty = false ∧ engineLookup s1.db pr.2 found0 = .ok found)) ∧
      nf = keys.filter (fun rk => ¬ found.any (fun q => q.1 == rk.key)) := by
  unfold gmRead at h
  cases hl : loadAll pr.1 with
  | error k0 =>
      rw [hl] at h
      simp at h
  | ok found0 =>
      rw [hl] at h
      cases hemp : pr.2.isEmpty with
      | true =>
          simp only [hemp, if_true] at h
          simp only [Option.some.injEq, Except.ok.injEq, Prod.mk.injEq] at h
          rcases h with ⟨h1, h2, _⟩
          subst h1
          exact ⟨found0, rfl, Or.inl ⟨rfl, rfl⟩, h2.symm⟩
      | false =>
          simp only [hemp, Bool.false_eq_true, if_false] at h
          cases he : engineLookup s1.db pr.2 found0 with
          | error k0 =>
              rw [he] at h
              simp at h
          | ok found2 =>
              rw [he] at h
              simp only [Option.some.injEq, Except.ok.injEq, Prod.mk.injEq] at h
              rcases h with ⟨h1, h2, _⟩
              subst h1
              exact ⟨found0, rfl, Or.inr ⟨rfl, he⟩, h2.symm⟩

/-- Core of the `get_many` result shape: given that the engine view agrees
with the overlay on buffer misses (true both when the read was preceded by
a flush and when it reads the unflushed database), the found map is the
overlay restricted to the requested keys, and the not-found list is the
in-order filter of the original keys whose overlay value is absent. -/
theorem gm_core {s s1 : Store} {keys : List RawKey} {found : List (Nat × Nat)}
    {nf : List RawKey} {s' : Store}
    (hdb : ∀ n, bufGet s.write_buffer n = none → dbGet s1.db n = overlayValue s n)
    (hread : gmRead s1 keys (gmPartition s.write_buffer (keys.map RawKey.key)) =
      some (.ok (found, nf, s'))) :
    (∀ n, alGet found n =
      (if n ∈ keys.map RawKey.key then (overlayValue s n).bind loads else none)) ∧
    nf = keys.filter (fun rk => ((overlayValue s rk.key).bind loads) = none) := by
  rcases gmPartition_char s.write_buffer (keys.map RawKey.key) with ⟨hfp, hktc, _⟩
  rcases gmRead_ok_char hread with ⟨found0, hl, hcase, hnf⟩
  have h0 : ∀ n, alGet found0 n =
      (if n ∈ keys.map RawKey.key then scanHit s.write_buffer n else none).bind loads := by
    intro n
    rw [loadAll_ok_char hl n, hfp n]
  have hfound : ∀ n, alGet found n =
      (if n ∈ keys.map RawKey.key then (overlayValue s n).bind loads else none) := by
    intro n
    rcases hcase with ⟨hemp, hfe⟩ | ⟨hemp, he⟩
    · subst hfe
      rw [h0 n]
      by_cases hmem : n ∈ keys.map RawKey.key
      · rw [if_pos hmem, if_pos hmem]
        have hnil : (gmPartition s.write_buffer (keys.map RawKey.key)).2 = [] :=
          List.isEmpty_iff.mp hemp
        have hb : bufGet s.write_buffer n ≠ none := by
          intro hbn
          have := (hktc n).mpr ⟨hmem, hbn⟩
          rw [hnil] at this
          cases this
        cases hb2 : bufGet s.write_buffer n with
        | none => exact absurd hb2 hb
        | some e => cases e <;> simp [scanHit, overlayValue, hb2]
      · rw [if_neg hmem, if_neg hmem]
        rfl
    · rw [engineLookup_ok_char he n, h0 n]
      by_cases hmem : n ∈ keys.map RawKey.key
      · cases hb2 : bufGet s.write_buffer n with
        | some e =>
            have hnot : n ∉ (gmPartition s.write_buffer (keys.map RawKey.key)).2 := by
              intro hin
              rcases (hktc n).mp hin with ⟨_, hnone⟩
              rw [hb2] at hnone
              cases hnone
            rw [if_pos hmem, if_pos hmem, if_neg hnot, Option.or_none]
            cases e <;> simp [scanHit, overlayValue, hb2]
        | none =>
            have hin : n ∈ (gmPartition s.write_buffer (keys.map RawKey.key)).2 :=
              (hktc n).mpr ⟨hmem, hb2⟩
            rw [if_pos hmem, if_pos hmem, if_pos hin]
            have hsc : scanHit s.write_buffer n = none := by
              simp [scanHit, hb2]
            rw [hsc]
            show ((none : Option Nat).or ((dbGet s1.db n).bind loads)) = _
            rw [Option.none_or, hdb n hb2]
      · have hnot : n ∉ (gmPartition s.write_buffer (keys.map RawKey.key)).2 := by
          intro hin
          exact hmem ((hktc n).mp hin).1
        rw [if_neg hmem, if_neg hmem, if_neg hnot]
        rfl
  refine ⟨hfound, ?_⟩
  rw [hnf]
  apply List.filter_congr
  intro rk hrk
  have hmem : rk.key ∈ keys.map RawKey.key := List.mem_map_of_mem RawKey.key hrk
  have hany : (found.any fun q => q.1 == rk.key) =
      ((overlayValue s rk.key).bind loads).isSome := by
    rw [← alGet_isSome_eq_any, hfound rk.key, if_pos hmem]
  cases hY : (overlayValue s rk.key).bind loads <;> simp [hany, hY]

/-- C6: on a successful `get_many`, buffer entries take precedence over
engine entries (the found map is exactly the overlay view restricted to the
requested normalized keys — so present, non-tombstoned keys map to their
values and tombstoned keys are excluded); the not-found list is the
original (not normalized) keys whose overlay value is absent or tombstoned,
preserving input order and duplicates; and the engine-lookup set is the
deduplicated list of buffer misses. -/
theorem C6_get_many_shape (fuel : Nat) (s : Store) (keys : List RawKey)
    (found : List (Nat × Nat)) (nf : List RawKey) (s' : Store)
    (hwf : BufWF s.write_buffer)
    (h : s.get_many fuel keys = some (.ok (found, nf, s'))) :
    (∀ n, alGet found n =
      (if n ∈ keys.map RawKey.key then (overlayValue s n).bind loads else none)) ∧
    nf = keys.filter (fun rk => ((overlayValue s rk.key).bind loads) = none) ∧
    (gmPartition s.write_buffer (keys.map RawKey.key)).2.Nodup ∧
    (∀ k, k ∈ (gmPartition s.write_buffer (keys.map RawKey.key)).2 ↔
      (k ∈ keys.map RawKey.key ∧ bufGet s.write_buffer k = none)) := by
  rcases gmPartition_char s.write_buffer (keys.map RawKey.key) with ⟨_, hktc, hnd⟩
  unfold Store.get_many at h
  by_cases hno : s.notOpen
  · rw [if_pos hno] at h
    simp at h
  · rw [if_neg hno] at h
    unfold gmAfterScan at h
    cases hc : (!(gmPartition s.write_buffer (keys.map RawKey.key)).2.isEmpty &&
        s.autoflush_on_read) with
    | false =>
        rw [hc] at h
        simp only [Bool.false_eq_true, if_false] at h
        replace h : gmRead s keys
            (gmPartition s.write_buffer (keys.map RawKey.key)) =
            some (.ok (found, nf, s')) := h
        have hdb : ∀ n, bufGet s.write_buffer n = none →
            dbGet s.db n = overlayValue s n := by
          intro n hn
          unfold overlayValue
          rw [hn]
        rcases gm_core hdb h with ⟨h1, h2⟩
        exact ⟨h1, h2, hnd, hktc⟩
    | true =>
        rw [hc] at h
        simp only [if_true] at h
        cases hf : s.flushBuffer fuel with
        | none => rw [hf] at h; cases h
        | some r =>
            rw [hf] at h
            cases r with
            | error es => simp at h
            | ok s1 =>
                replace h : gmRead s1 keys
                    (gmPartition s.write_buffer (keys.map RawKey.key)) =
                    some (.ok (found, nf, s')) := h
                have hdb : ∀ n, bufGet s.write_buffer n = none →
                    dbGet s1.db n = overlayValue s n := by
                  intro n hn
                  rcases flushBuffer_ok hf with ⟨hs1, _⟩
                  rw [hs1]
                  exact dbGet_applyBuf s.db s.write_buffer n hwf
                rcases gm_core hdb h with ⟨h1, h2⟩
                exact ⟨h1, h2, hnd, hktc⟩

/-- Witness for C6: the spec's example — keys `[a, missing, b, a]` with
`a = 1, b = 2` stored (as 10 and 11) returns found `{a: 1, b: 2}` and
not-found `[missing]` with the original key, in order, once. -/
theorem C6_get_many_shape_witness :
    sampleStore.get_many 5
      [RawKey.mk 100 10, RawKey.mk 200 99, RawKey.mk 300 11, RawKey.mk 101 10] =
      some (.ok ([(10, 1), (11, 2)], [RawKey.mk 200 99], sampleStore)) ∧
    alGet [(10, 1), (11, 2)] 10 = some 1 ∧
    [RawKey.mk 200 99] =
      ([RawKey.mk 100 10, RawKey.mk 200 99, RawKey.mk 300 11,
        RawKey.mk 101 10].filter
        (fun rk => ((overlayValue sampleStore rk.key).bind loads) = none)) := by
  have h := C6_get_many_shape 5 sampleStore
      [RawKey.mk 100 10, RawKey.mk 200 99, RawKey.mk 300 11, RawKey.mk 101 10]
      [(10, 1), (11, 2)] [RawKey.mk 200 99] sampleStore (by decide) rfl
  exact ⟨rfl, h.1 10, h.2.1⟩

/-! ### C8: read-only enforcement -/

theorem alGet_mem {α : Type} {l : List (Nat × α)} {k : Nat} {v : α}
    (h : alGet l k = some v) : (k, v) ∈ l := by
  induction l with
  | nil => cases h
  | cons q rest ih =>
      rcases q with ⟨k0, v0⟩
      rw [alGet_cons] at h
      by_cases hk : k0 = k
      · rw [if_pos hk] at h
        cases h
        subst hk
        exact List.mem_cons_self _ _
      · rw [if_neg hk] at h
        exact List.mem_cons_of_mem _ (ih h)

theorem alGet_all_none_nil {α : Type} {l : List (Nat × α)}
    (h : ∀ k, alGet l k = none) : l = [] := by
  cases l with
  | nil => rfl
  | cons q rest =>
      rcases q with ⟨k0, v0⟩
      have := h k0
      rw [alGet_cons, if_pos rfl] at this
      cases this

/-- With an empty write buffer, the scan of `get_many` finds no buffered
hits. -/
theorem gmPartition_fst_nil (nks : List Nat) :
    (gmPartition ([] : Buffer) nks).1 = [] := by
  rcases gmPartition_char [] nks with ⟨hfp, _, _⟩
  apply alGet_all_none_nil
  intro k
  rw [hfp k]
  by_cases hmem : k ∈ nks
  · rw [if_pos hmem]
    rfl
  · rw [if_neg hmem]

theorem engineLookup_cons_none {d : DB} {k0 : Nat} {rest : List Nat}
    {acc : List (Nat × Nat)} (hd : dbGet d k0 = none) :
    engineLookup d (k0 :: rest) acc = engineLookup d rest acc := by
  conv_lhs => unfold engineLookup
  rw [hd]

theorem engineLookup_cons_hit {d : DB} {k0 : Nat} {rest : List Nat}
    {acc : List (Nat × Nat)} {p : PVal} (hd : dbGet d k0 = some p)
    (hhit : acc.any (fun q => q.1 == k0) = true) :
    engineLookup d (k0 :: rest) acc = engineLookup d rest acc := by
  conv_lhs => unfold engineLookup
  rw [hd]
  show (if acc.any (fun q => q.1 == k0) then engineLookup d rest acc
        else
          match loads p with
          | none => Except.error k0
          | some v => engineLookup d rest (acc ++ [(k0, v)])) = _
  rw [if_pos hhit]

theorem engineLookup_cons_new {d : DB} {k0 : Nat} {rest : List Nat}
    {acc : List (Nat × Nat)} {p : PVal} {v : Nat} (hd : dbGet d k0 = some p)
    (hhit : acc.any (fun q => q.1 == k0) = false) (hv : loads p = some v) :
    engineLookup d (k0 :: rest) acc = engineLookup d rest (acc ++ [(k0, v)]) := by
  conv_lhs => unfold engineLookup
  rw [hd]
  show (if acc.any (fun q => q.1 == k0) then engineLookup d rest acc
        else
          match loads p with
          | none => Except.error k0
          | some v => engineLookup d rest (acc ++ [(k0, v)])) = _
  rw [if_neg (by rw [hhit]; simp), hv]

/-- When every committed record deserializes, the engine-read loop cannot
fail. -/
theorem engineLookup_ok_of_loadable {d : DB}
    (hdb : ∀ q ∈ d, (q.2).obj.isSome = true) :
    ∀ (ktc : List Nat) (acc : List (Nat × Nat)),
      ∃ res, engineLookup d ktc acc = .ok res := by
  intro ktc
  induction ktc with
  | nil => intro acc; exact ⟨acc, rfl⟩
  | cons k0 rest ih =>
      intro acc
      cases hd : dbGet d k0 with
      | none =>
          rcases ih acc with ⟨res, hres⟩
          exact ⟨res, by rw [engineLookup_cons_none hd]; exact hres⟩
      | some p =>
          have hps : p.obj.isSome = true := hdb (k0, p) (alGet_mem hd)
          obtain ⟨v, hv⟩ := Option.isSome_iff_exists.mp hps
          cases hhit : acc.any (fun q => q.1 == k0) with
          | true =>
              rcases ih acc with ⟨res, hres⟩
              exact ⟨res, by rw [engineLookup_cons_hit hd hhit]; exact hres⟩
          | false =>
              rcases ih (acc ++ [(k0, v)]) with ⟨res, hres⟩
              exact ⟨res, by rw [engineLookup_cons_new hd hhit hv]; exact hres⟩

/-- A read phase over an empty buffer and a fully deserializable database
succeeds. -/
theorem gmRead_ok_exists (s1 : Store) (keys : List RawKey)
    (hdb : ∀ q ∈ s1.db, (q.2).obj.isSome = true) :
    ∃ found nf s',
      gmRead s1 keys (gmPartition ([] : Buffer) (keys.map RawKey.key)) =
        some (.ok (found, nf, s')) := by
  have hl : loadAll (gmPartition ([] : Buffer) (keys.map RawKey.key)).1 =
      .ok [] := by
    rw [gmPartition_fst_nil]
    rfl
  cases hemp : (gmPartition ([] : Buffer) (keys.map RawKey.key)).2.isEmpty with
  | true =>
      refine ⟨[], keys.filter (fun rk => ¬ ([] : List (Nat × Nat)).any
        (fun q => q.1 == rk.key)), s1, ?_⟩
      unfold gmRead
      rw [hl, hemp]
      rfl
  | false =>
      rcases engineLookup_ok_of_loadable hdb
        (gmPartition ([] : Buffer) (keys.map RawKey.key)).2 [] with ⟨res, he⟩
      refine ⟨res, keys.filter (fun rk => ¬ res.any (fun q => q.1 == rk.key)),
        { s1 with readers := s1.readers + 1 - 1 }, ?_⟩
      unfold gmRead
      rw [hl, hemp]
      show (match engineLookup
              ({ s1 with readers := s1.readers + 1 } : Store).db
              (gmPartition ([] : Buffer) (keys.map RawKey.key)).2 [] with
            | Except.error _ =>
                some (Except.error (Err.corrupt ErrCtx.persisted,
                  { s1 with readers := s1.readers + 1 - 1 }))
            | Except.ok found =>
                some (Except.ok (found,
                  keys.filter (fun (rk : RawKey) => ¬ found.any (fun q => q.1 == rk.key)),
                  { s1 with readers := s1.readers + 1 - 1 }))) = _
      rw [show engineLookup ({ s1 with readers := s1.readers + 1 } : Store).db
            (gmPartition ([] : Buffer) (keys.map RawKey.key)).2 [] =
          Except.ok res from he]

/-- C8: on an open read-only store (whose buffer is necessarily empty, and
whose records deserialize), `put`, `delete`, `flush` and `put_many` all
fail with the read-only violation leaving the state unchanged, while `get`,
`exists` and `get_many` succeed. -/
theorem C8_readonly_enforcement (fuel : Nat) (s : Store)
    (hopen : s.notOpen = false) (hro : s.readonly = true)
    (hbuf : s.write_buffer = [])
    (hdb : ∀ q ∈ s.db, (q.2).obj.isSome = true) :
    (∀ k v, s.put fuel k v = some (.error (.readOnly, s))) ∧
    (∀ k, s.delete fuel k = some (.error (.readOnly, s))) ∧
    (s.flush fuel = some (.error (.readOnly, s))) ∧
    (∀ items, s.put_many fuel items = some (.error (.readOnly, s))) ∧
    (∀ k d, ∃ r s', s.get fuel k d = some (.ok (r, s'))) ∧
    (∀ k f, ∃ b s', s.existsKey fuel k f = some (.ok (b, s'))) ∧
    (∀ keys, ∃ found nf s', s.get_many fuel keys = some (.ok (found, nf, s'))) := by
  have hmiss : ∀ k, bufGet s.write_buffer k = none := by
    intro k
    rw [hbuf]
    rfl
  have hflif : ∀ b : Bool, (if b then s.flushBuffer fuel else some (.ok s)) =
      some (.ok s) := by
    intro b
    cases b
    · rfl
    · exact flushBuffer_empty fuel hbuf
  refine ⟨?_, ?_, ?_, ?_, ?_, ?_, ?_⟩
  · intro k v
    unfold Store.put
    rw [if_neg (by rw [hopen]; simp), if_pos (by rw [hro])]
  · intro k
    unfold Store.delete
    rw [if_neg (by rw [hopen]; simp), if_pos (by rw [hro])]
  · unfold Store.flush
    rw [if_neg (by rw [hopen]; simp), if_pos (by rw [hro])]
  · intro items
    unfold Store.put_many
    rw [if_neg (by rw [hopen]; simp), if_pos (by rw [hro])]
  · intro k d
    have hmissk := get_buffer_miss fuel s k d s hopen (hmiss k)
      (hflif s.autoflush_on_read)
    cases hd : dbGet s.db k with
    | none =>
        refine ⟨d, { s with readers := s.readers + 1 - 1 }, ?_⟩
        rw [hmissk, hd]
    | some p =>
        have hps : p.obj.isSome = true := hdb (k, p) (alGet_mem hd)
        obtain ⟨v, hv⟩ := Option.isSome_iff_exists.mp hps
        refine ⟨some v, { s with readers := s.readers + 1 - 1 }, ?_⟩
        rw [hmissk]
        simp only [hd]
        rw [show loads p = some v from hv]
  · intro k f
    refine ⟨(dbGet s.db k).isSome, { s with readers := s.readers + 1 - 1 }, ?_⟩
    exact existsKey_buffer_miss fuel s k f s hopen (hmiss k)
      (hflif (f.getD s.autoflush_on_read))
  · intro keys
    have hread := gmRead_ok_exists s keys hdb
    rcases hread with ⟨found, nf, s', hread⟩
    refine ⟨found, nf, s', ?_⟩
    unfold Store.get_many
    rw [if_neg (by rw [hopen]; simp)]
    unfold gmAfterScan
    rw [show (gmPartition s.write_buffer (keys.map RawKey.key)) =
        gmPartition ([] : Buffer) (keys.map RawKey.key) by rw [hbuf]]
    rw [hflif (!(gmPartition ([] : Buffer) (keys.map RawKey.key)).2.isEmpty &&
      s.autoflush_on_read)]
    exact hread

/-- Witness for C8: a read-only copy of the sample store rejects `put`,
`delete`, `flush` and `put_many` and serves `get`, `exists` and
`get_many`. -/
theorem C8_readonly_enforcement_witness :
    ({ sampleStore with readonly := true } : Store).put 5 1 7 =
      some (.error (.readOnly, { sampleStore with readonly := true })) ∧
    ({ sampleStore with readonly := true } : Store).put_many 5 [(1, some 7)] =
      some (.error (.readOnly, { sampleStore with readonly := true })) ∧
    (∃ r s', ({ sampleStore with readonly := true } : Store).get 5 10 none =
      some (.ok (r, s'))) ∧
    (∃ found nf s', ({ sampleStore with readonly := true } : Store).get_many 5
      [RawKey.mk 0 10] = some (.ok (found, nf, s'))) := by
  have h := C8_readonly_enforcement 5 { sampleStore with readonly := true }
    rfl rfl rfl (by decide)
  exact ⟨h.1 1 7, h.2.2.2.1 [(1, some 7)], h.2.2.2.2.1 10 none,
    h.2.2.2.2.2.2 [RawKey.mk 0 10]⟩

/-! ### C4: reader-counter balance -/

/-- The store carried by a decided operation outcome. -/
def readersOf {α : Type} : Except (Err × Store) (α × Store) → Nat
  | .ok (_, st) => st.readers
  | .error (_, st) => st.readers

/-- C4 accompanying theorem: `get` and `exists` always rebalance the
active-reader counter (also across the deserialization-failure raise), and
the decrement step signals the close waiter exactly when the counter
reaches zero while the store is Closing; but `get_many` violates the claim:
with a corrupt buffered value under one key and another key requiring an
engine lookup, the call raises after incrementing the counter and never
decrements it — the concrete run below ends with the counter at 1 instead
of 0. -/
theorem C4_reader_counter_balance :
    (∀ fuel (s : Store) k d r, s.get fuel k d = some r → readersOf r = s.readers) ∧
    (∀ fuel (s : Store) k f r, s.existsKey fuel k f = some r → readersOf r = s.readers) ∧
    (∀ n closing, (readerExit (n + 1) closing).1 = n ∧
      ((readerExit (n + 1) closing).2 = true ↔ (n = 0 ∧ closing = true))) ∧
    (∃ s' : Store,
      ({ sampleStore with
           write_buffer := [(0, BufEntry.val (PVal.mk 3 none))] } : Store).get_many 5
        [RawKey.mk 0 0, RawKey.mk 1 1] =
        some (.error (.corrupt .buffered, s')) ∧
      s'.readers = 1 ∧
      ({ sampleStore with
           write_buffer := [(0, BufEntry.val (PVal.mk 3 none))] } : Store).readers = 0) := by
  refine ⟨?_, ?_, ?_, ?_⟩
  · intro fuel s k d r h
    unfold Store.get at h
    by_cases hno : s.notOpen
    · rw [if_pos hno] at h
      cases h
      rfl
    · rw [if_neg hno] at h
      cases hb : bufGet s.write_buffer k with
      | some e =>
          cases e with
          | tomb =>
              rw [hb] at h
              cases h
              rfl
          | val p =>
              rw [hb] at h
              replace h :
                  (match loads p with
                   | some v => some (Except.ok (some v, s))
                   | none => some (Except.error (Err.corrupt ErrCtx.buffered, s))) =
                    some r := h
              cases hl : loads p with
              | some v => rw [hl] at h; cases h; rfl
              | none => rw [hl] at h; cases h; rfl
      | none =>
          rw [hb] at h
          cases hfl : (if s.autoflush_on_read then s.flushBuffer fuel
              else some (Except.ok s)) with
          | none => rw [hfl] at h; cases h
          | some rf =>
              rw [hfl] at h
              have hreaders : ∀ s1 : Store, rf = Except.ok s1 → s1.readers = s.readers := by
                intro s1 hrf
                subst hrf
                by_cases hauto : s.autoflush_on_read
                · rw [if_pos hauto] at hfl
                  rcases flushBuffer_ok hfl with ⟨hs1, _⟩
                  rw [hs1]
                · rw [if_neg hauto] at hfl
                  cases hfl
                  rfl
              cases rf with
              | error es =>
                  cases h
                  rcases es with ⟨e1, st⟩
                  by_cases hauto : s.autoflush_on_read
                  · rw [if_pos hauto] at hfl
                    rcases flushBuffer_err hfl with ⟨_, hst, _⟩
                    show st.readers = s.readers
                    rw [hst]
                  · rw [if_neg hauto] at hfl
                    simp at hfl
              | ok s1 =>
                  replace h :
                      (match dbGet s1.db k with
                       | none => some (Except.ok (d,
                           { s1 with readers := s1.readers + 1 - 1 }))
                       | some p =>
                           match loads p with
                           | some v => some (Except.ok (some v,
                               { s1 with readers := s1.readers + 1 - 1 }))
                           | none => some (Except.error (Err.corrupt ErrCtx.persisted,
                               { s1 with readers := s1.readers + 1 - 1 }))) =
                        some r := h
                  have hs1r : s1.readers = s.readers := hreaders s1 rfl
                  cases hd : dbGet s1.db k with
                  | none =>
                      rw [hd] at h
                      cases h
                      simpa using hs1r
                  | some p =>
                      rw [hd] at h
                      replace h :
                          (match loads p with
                           | some v => some (Except.ok (some v,
                               { s1 with readers := s1.readers + 1 - 1 }))
                           | none => some (Except.error (Err.corrupt ErrCtx.persisted,
                               { s1 with readers := s1.readers + 1 - 1 }))) =
                            some r := h
                      cases hl : loads p with
                      | some v => rw [hl] at h; cases h; simpa using hs1r
                      | none => rw [hl] at h; cases h; simpa using hs1r
  · intro fuel s k f r h
    unfold Store.existsKey at h
    by_cases hno : s.notOpen
    · rw [if_pos hno] at h
      cases h
      rfl
    · rw [if_neg hno] at h
      cases hb : bufGet s.write_buffer k with
      | some e =>
          rw [hb] at h
          cases h
          rfl
      | none =>
          rw [hb] at h
          replace h :
              (match (if f.getD s.autoflush_on_read then s.flushBuffer fuel
                      else some (Except.ok s)) with
               | none => none
               | some (Except.error es) => some (Except.error es)
               | some (Except.ok s1) =>
                   some (Except.ok ((dbGet s1.db k).isSome,
                     { s1 with readers := s1.readers + 1 - 1 }))) = some r := h
          cases hfl : (if f.getD s.autoflush_on_read then s.flushBuffer fuel
              else some (Except.ok s)) with
          | none => rw [hfl] at h; cases h
          | some rf =>
              rw [hfl] at h
              have hreaders : ∀ s1 : Store, rf = Except.ok s1 → s1.readers = s.readers := by
                intro s1 hrf
                subst hrf
                by_cases hauto : f.getD s.autoflush_on_read
                · rw [if_pos hauto] at hfl
                  rcases flushBuffer_ok hfl with ⟨hs1, _⟩
                  rw [hs1]
                · rw [if_neg hauto] at hfl
                  cases hfl
                  rfl
              cases rf with
              | error es =>
                  cases h
                  rcases es with ⟨e1, st⟩
                  by_cases hauto : f.getD s.autoflush_on_read
                  · rw [if_pos hauto] at hfl
                    rcases flushBuffer_err hfl with ⟨_, hst, _⟩
                    show st.readers = s.readers
                    rw [hst]
                  · rw [if_neg hauto] at hfl
                    simp at hfl
              | ok s1 =>
                  replace h : some (Except.ok ((dbGet s1.db k).isSome,
                      { s1 with readers := s1.readers + 1 - 1 })) = some r := h
                  cases h
                  simpa using hreaders s1 rfl
  · intro n closing
    refine ⟨rfl, ?_⟩
    unfold readerExit
    simp [Nat.add_sub_cancel]
  · exact ⟨_, rfl, rfl, rfl⟩

/-- Witness for the balanced part of C4: a concrete engine-read `get`
returns with the counter back at its entry value. -/
theorem C4_reader_counter_balance_witness :
    ∃ r, sampleStore.get 5 10 none = some r ∧ readersOf r = sampleStore.readers :=
  ⟨_, rfl, C4_reader_counter_balance.1 5 sampleStore 10 none _ rfl⟩

end LOS
